import Mathlib

set_option maxHeartbeats 1000000

/-!
Verification of the apples-to-models game engine.

This file is a shallow embedding, in Lean 4, of the core of the
apples-to-models repository: the game state machine of
benchmark/game.py (decks, players, rounds, moves, decisions, the
operations new_game / start_round / play_card / judge_round and JSON
save/load) and the response validation / fallback logic of
benchmark/run.py (normalize_card_name, parse_model_response,
handle_model_interaction).

Conventions used throughout:
* Python exceptions are modelled with Except; since Python methods can
  mutate the object before raising, an error carries the state of the
  game at the moment the exception propagates.
* random.shuffle is modelled by an explicit shuffle parameter which is
  assumed (where it matters) to permute its input.
* Python dictionaries are modelled as association lists in insertion
  order; Game.players, which new_game always keys with the consecutive
  indices 0..n-1 in order, is modelled as a plain list indexed by
  player index.
* Python string methods (strip, split, join, startswith) are modelled
  by structurally recursive functions on character lists so that all
  definitions evaluate by kernel reduction.
* Machine floats (cost bookkeeping) are carried as Lean Float values;
  they are only ever stored, added, or copied, never compared.
-/

/-- Model of a pathlib.Path value: the canonical string form of the path,
so that str(p) recovers the stored string and Path applied to str(p)
gives back p. -/
structure PyPath where
  path : String
deriving DecidableEq, Repr

/-- Model of the pydantic field type Union[str, Path], as used for the
log_path fields of PlayerMove and JudgeDecision in benchmark/game.py. -/
inductive StrOrPath where
  | str (s : String)
  | path (p : PyPath)
deriving DecidableEq, Repr

/-- Model of ModelResponse from benchmark/model_utils.py.  The class as
written declares content, tokens_prompt, tokens_completion, total_cost,
generation_id and log_path; BenchmarkStats.add_response additionally
reads response.model, and the test-suite constructs ModelResponse with a
model argument, so the model field is included here as the code using
the class assumes. -/
structure ModelResponse where
  content : String
  model : String
  tokens_prompt : Int
  tokens_completion : Int
  total_cost : Float
  generation_id : String
  log_path : Option PyPath := none

/-- Dictionary keys occurring in Python data dumped from the game:
either strings or ints (player indices). -/
inductive PyKey where
  | s (v : String)
  | i (v : Int)
deriving DecidableEq, Repr

mutual
/-- Model of a Python value tree as produced by pydantic model_dump and
consumed by json.dump / json.load / model_validate.  Paths and int dict
keys survive model_dump (python mode) and are only converted when the
tree is pushed through the JSON text layer.  Lists and dicts are given
their own mutually inductive spine so that every function over trees is
structurally recursive. -/
inductive PyVal where
  | pynone
  | str (s : String)
  | int (n : Int)
  | float (f : Float)
  | bool (b : Bool)
  | list (xs : PyListVal)
  | dict (kvs : PyDictVal)
  | path (p : PyPath)
inductive PyListVal where
  | nil
  | cons (head : PyVal) (tail : PyListVal)
inductive PyDictVal where
  | nil
  | cons (key : PyKey) (value : PyVal) (tail : PyDictVal)
end

/-- Build a dict tree from a list of bindings. -/
def PyDictVal.ofList : List (PyKey × PyVal) → PyDictVal
  | [] => .nil
  | (k, v) :: rest => .cons k v (PyDictVal.ofList rest)

/-- Build a list tree from a list of values. -/
def PyListVal.ofList : List PyVal → PyListVal
  | [] => .nil
  | v :: rest => .cons v (PyListVal.ofList rest)

/-- Dictionary lookup by string key (first binding wins; in Python a key
occurs at most once). -/
def pyDictGet (kvs : PyDictVal) (k : String) : Option PyVal :=
  match kvs with
  | .nil => none
  | .cons key v rest => if key = PyKey.s k then some v else pyDictGet rest k

/-- Characters treated as whitespace by the Python str.strip method. -/
def pyIsSpace (c : Char) : Bool :=
  c = ' ' || c = '\t' || c = '\n' || c = '\r' || c = '\x0b' || c = '\x0c'

/-- Model of the Python str.strip method: remove leading and trailing
whitespace. -/
def pyStrip (s : String) : String :=
  (((s.data.dropWhile pyIsSpace).reverse.dropWhile pyIsSpace).reverse).asString

/-- Model of the Python str.split method with separator newline. -/
def splitNL (cs : List Char) : List (List Char) :=
  cs.foldr
    (fun c acc =>
      match acc with
      | [] => [[c]]
      | a :: rest => if c = '\n' then [] :: a :: rest else (c :: a) :: rest)
    [[]]

/-- Model of the Python newline join of a list of lines. -/
def joinNL : List (List Char) → List Char
  | [] => []
  | [a] => a
  | a :: rest => a ++ '\n' :: joinNL rest

/-- Model of the Python str.join method for an arbitrary separator. -/
def pyJoin (sep : String) : List String → String
  | [] => ""
  | [a] => a
  | a :: rest => a ++ sep ++ pyJoin sep rest

/-- Model of normalize_card_name from benchmark/run.py: keep only the
alphabetic characters and lowercase them. -/
def normalize_card_name (card : String) : String :=
  ((card.data.filter Char.isAlpha).map Char.toLower).asString

/-- Model of parse_model_response from benchmark/run.py.  json.loads is
Python standard library, treated as an external collaborator: it is
passed in as the parameter jsonLoads, which returns the parsed value
tree or the text of the JSONDecodeError.  The code fence stripping, the
whitespace trimming, the object check, the required-field check and the
stripping of the two fields are translated from the source.  A
non-string value under one of the two keys makes Python raise an
AttributeError from .strip(); that branch is represented by the error
string "AttributeError". -/
def parse_model_response (jsonLoads : String → Except String PyVal)
    (content : String) : Except String (String × String) :=
  let content :=
    if ("```".data.isPrefixOf content.data) then
      (joinNL (((splitNL content.data).drop 1).dropLast)).asString
    else content
  let content := pyStrip content
  match jsonLoads content with
  | .error e => .error ("Invalid JSON response: " ++ e)
  | .ok v =>
    match v with
    | .dict kvs =>
      match pyDictGet kvs "reasoning", pyDictGet kvs "card" with
      | some r, some c =>
        match r, c with
        | .str r, .str c => .ok (pyStrip r, pyStrip c)
        | _, _ => .error "AttributeError"
      | _, _ => .error "Response must contain \x27reasoning\x27 and \x27card\x27 fields"
    | _ => .error "Response must be a JSON object"

/-- The card-matching loop of handle_model_interaction (run.py lines
163-175): scan valid_cards in order and return the first legal card
whose normalized form equals the normalized chosen card. -/
def findValidCard (card : String) (valid_cards : List String) : Option String :=
  valid_cards.find? (fun v => normalize_card_name v == normalize_card_name card)

/-- Model of handle_model_interaction from benchmark/run.py.  The
transport call (await call_model) either raises (transport = none) or
yields a ModelResponse.  fallback_card and fallback_thinking are the
first two components of the result of fallback_fn; the source discards
the third component of the fallback result.  The function makes exactly
one transport attempt; on any failure after a transport success it
returns the fallback card with a rationale built from the error and the
raw content, keeping the log path of the attempt; on transport failure
it returns the fallback with no log path. -/
def handle_model_interaction (jsonLoads : String → Except String PyVal)
    (transport : Option ModelResponse) (valid_cards : List String)
    (fallback_card fallback_thinking : String) :
    String × String × Option PyPath :=
  match transport with
  | none => (fallback_card, fallback_thinking, none)
  | some mr =>
    match parse_model_response jsonLoads mr.content with
    | .error e =>
      (fallback_card,
       "Random selection (model failed: " ++ e ++ ")\nRaw response: " ++ mr.content,
       mr.log_path)
    | .ok (thinking, card) =>
      match findValidCard card valid_cards with
      | some v => (v, thinking, mr.log_path)
      | none =>
        (fallback_card,
         "Random selection (model failed: Model chose card \x27" ++ card ++
           "\x27 which is not in valid cards: " ++ pyJoin ", " valid_cards ++
           ")\nRaw response: " ++ mr.content,
         mr.log_path)

/-- Naive substring test: sub occurs contiguously inside s. -/
def strContains (s sub : String) : Bool :=
  (List.range (s.data.length + 1)).any (fun i => sub.data.isPrefixOf (s.data.drop i))

/-- Helper: in a list split two ways, if the marked element of the second
split sits strictly inside the first part of the first split, it is a
member of that first part. -/
theorem mem_left_of_split {α : Type} (A B C D : List α) (x : α)
    (h : A ++ B = C ++ x :: D) (hlt : C.length < A.length) : x ∈ A := by
  have hx : (A ++ B).get? C.length = some x := by
    rw [h]
    rw [List.get?_append_right (Nat.le_refl _)]
    simp
  rw [List.get?_append hlt] at hx
  exact List.get?_mem hx

/-- Helper: find? returns the first element satisfying the predicate, in
the sense that the list splits around the result with every earlier
element failing the predicate. -/
theorem find?_eq_some_split {α : Type} (p : α → Bool) :
    ∀ (l : List α) (v : α), l.find? p = some v →
      ∃ preE postE, l = preE ++ v :: postE ∧ ∀ x ∈ preE, p x = false := by
  intro l
  induction l with
  | nil => intro v h; simp [List.find?] at h
  | cons a as ih =>
    intro v h
    by_cases hpa : p a
    · refine ⟨[], as, ?_, by simp⟩
      simp [List.find?, hpa] at h
      simp [h]
    · simp [List.find?, Bool.of_not_eq_true hpa] at h
      obtain ⟨preE, postE, heq, hall⟩ := ih v h
      refine ⟨a :: preE, postE, by simp [heq], ?_⟩
      intro x hx
      rcases List.mem_cons.mp hx with hx | hx
      · subst hx; exact Bool.of_not_eq_true hpa
      · exact hall x hx

/-- C6: normalization lower-cases and strips non-alphabetic characters,
so strings differing only in case or non-alphabetic characters
normalize identically (with the Queen Elizabeth examples as concrete
instances); a chosen card matches a legal card exactly when their
normalized forms are equal; on a match the validator returns the legal
set's original spelling of the card; if no legal card matches,
validation fails with a rationale naming the offending raw choice. -/
theorem validator_normalization :
    (normalize_card_name "Queen Elizabeth." = normalize_card_name "QUEEN ELIZABETH"
      ∧ normalize_card_name "QUEEN ELIZABETH" = normalize_card_name "queen elizabeth"
      ∧ normalize_card_name "Queen Elizabeth." = "queenelizabeth")
    ∧ (∀ s t : String,
        (s.data.filter Char.isAlpha).map Char.toLower
          = (t.data.filter Char.isAlpha).map Char.toLower →
        normalize_card_name s = normalize_card_name t)
    ∧ (∀ card valid_cards, (findValidCard card valid_cards).isSome ↔
        ∃ v ∈ valid_cards, normalize_card_name v = normalize_card_name card)
    ∧ (∀ jsonLoads mr valid_cards fb fbt thinking card v,
        parse_model_response jsonLoads mr.content = .ok (thinking, card) →
        findValidCard card valid_cards = some v →
        v ∈ valid_cards ∧ normalize_card_name v = normalize_card_name card ∧
        handle_model_interaction jsonLoads (some mr) valid_cards fb fbt
          = (v, thinking, mr.log_path))
    ∧ (∀ jsonLoads mr valid_cards fb fbt thinking card,
        parse_model_response jsonLoads mr.content = .ok (thinking, card) →
        findValidCard card valid_cards = none →
        (handle_model_interaction jsonLoads (some mr) valid_cards fb fbt).2.1 =
          "Random selection (model failed: Model chose card \x27" ++ card ++
          "\x27 which is not in valid cards: " ++ pyJoin ", " valid_cards ++
          ")\nRaw response: " ++ mr.content) := by
  refine ⟨⟨by decide, by decide, by decide⟩, ?_, ?_, ?_, ?_⟩
  · intro s t h
    simp only [normalize_card_name, h]
  · intro card valid_cards
    rw [findValidCard, List.find?_isSome]
    constructor
    · rintro ⟨v, hv, hp⟩
      exact ⟨v, hv, by simpa using hp⟩
    · rintro ⟨v, hv, hp⟩
      exact ⟨v, hv, by simpa using hp⟩
  · intro jsonLoads mr valid_cards fb fbt thinking card v hparse hfind
    refine ⟨List.mem_of_find?_eq_some hfind, ?_, ?_⟩
    · have := List.find?_some hfind
      simpa using this
    · simp [handle_model_interaction, hparse, hfind]
  · intro jsonLoads mr valid_cards fb fbt thinking card hparse hfind
    simp [handle_model_interaction, hparse, hfind]

/-- A concrete model response whose content is valid JSON choosing the
card QUEEN ELIZABETH. -/
def sampleMr : ModelResponse :=
  { content := "\x7b\"reasoning\": \"good\", \"card\": \"QUEEN ELIZABETH\"\x7d"
    model := "test-model"
    tokens_prompt := 10
    tokens_completion := 5
    total_cost := 0.0
    generation_id := "gid-1"
    log_path := some ⟨"tests/test1.log"⟩ }

/-- A concrete model response whose content is valid JSON but lacks the
required card field on every attempt. -/
def badMr : ModelResponse :=
  { content := "\x7b\"reasoning\": \"r\"\x7d"
    model := "test-model"
    tokens_prompt := 10
    tokens_completion := 5
    total_cost := 0.0
    generation_id := "gid-2"
    log_path := some ⟨"tests/test8.log"⟩ }

/-- A concrete stand-in for json.loads, agreeing with the Python library
on the inputs used in this file. -/
def sampleJsonLoads : String → Except String PyVal := fun s =>
  if s = "\x7b\"reasoning\": \"good\", \"card\": \"QUEEN ELIZABETH\"\x7d" then
    .ok (.dict (PyDictVal.ofList
      [(.s "reasoning", .str "good"), (.s "card", .str "QUEEN ELIZABETH")]))
  else if s = "\x7b\"reasoning\": \"r\"\x7d" then
    .ok (.dict (PyDictVal.ofList [(.s "reasoning", .str "r")]))
  else if s = "\x7b\"reasoning\": \"close\", \"card\": \"CARD!!\"\x7d" then
    .ok (.dict (PyDictVal.ofList
      [(.s "reasoning", .str "close"), (.s "card", .str "CARD!!")]))
  else
    .error "Expecting value: line 1 column 1 (char 0)"

/-- Witness for validator_normalization: the agent answers QUEEN
ELIZABETH and the validator returns the legal spelling Queen Elizabeth
with the agent's rationale and log path. -/
theorem validator_normalization_witness :
    handle_model_interaction sampleJsonLoads (some sampleMr)
        ["Queen Elizabeth"] "fb" "Random selection"
      = ("Queen Elizabeth", "good", some ⟨"tests/test1.log"⟩) :=
  (validator_normalization.2.2.2.1 sampleJsonLoads sampleMr
    ["Queen Elizabeth"] "fb" "Random selection" "good" "QUEEN ELIZABETH"
    "Queen Elizabeth" rfl rfl).2.2

/-- C10: when two distinct legal cards have the same normalized form and
the chosen card normalizes to that shared form, the validator returns
the earliest legal card with that normalized form, and the later
colliding card is never selected.  The final conjunct instantiates this
on a legal list whose two cards differ only in digits. -/
theorem collision_resolves_by_list_order :
    (∀ (valid_cards pre mid post : List String) (c1 c2 chosen : String),
      valid_cards = pre ++ c1 :: mid ++ c2 :: post →
      c1 ≠ c2 →
      normalize_card_name c1 = normalize_card_name c2 →
      normalize_card_name chosen = normalize_card_name c1 →
      c2 ∉ pre ++ c1 :: mid →
      ∃ v preE postE,
        findValidCard chosen valid_cards = some v ∧
        valid_cards = preE ++ v :: postE ∧
        normalize_card_name v = normalize_card_name chosen ∧
        (∀ x ∈ preE, normalize_card_name x ≠ normalize_card_name chosen) ∧
        v ≠ c2)
    ∧ findValidCard "CARD!!" ["Card #1", "Card #2"] = some "Card #1" := by
  constructor
  · intro valid_cards pre mid post c1 c2 chosen heq hne hnorm hchosen hnotin
    have hc1mem : c1 ∈ valid_cards := by subst heq; simp
    have hsome : (findValidCard chosen valid_cards).isSome := by
      rw [findValidCard, List.find?_isSome]
      exact ⟨c1, hc1mem, by simp [hchosen]⟩
    obtain ⟨v, hv⟩ := Option.isSome_iff_exists.mp hsome
    obtain ⟨preE, postE, hsplit, hfail⟩ := find?_eq_some_split _ _ _ hv
    have hvnorm : normalize_card_name v = normalize_card_name chosen := by
      have := List.find?_some hv
      simpa using this
    have hpreE_le : preE.length ≤ pre.length := by
      by_contra hgt
      push_neg at hgt
      have hc1pre : c1 ∈ preE := by
        refine mem_left_of_split preE (v :: postE) pre (mid ++ c2 :: post) c1 ?_ hgt
        rw [← hsplit, heq]
        simp
      have := hfail c1 hc1pre
      simp [hchosen.symm] at this
    have hvmem : v ∈ pre ++ c1 :: mid := by
      have hlen : preE.length < (pre ++ c1 :: mid).length := by
        simp only [List.length_append, List.length_cons]
        omega
      refine mem_left_of_split (pre ++ c1 :: mid) (c2 :: post) preE postE v ?_ hlen
      rw [← hsplit, heq]
    exact ⟨v, preE, postE, hv, hsplit, hvnorm, fun x hx h => by
        have := hfail x hx; simp [h] at this,
      fun hveq => hnotin (hveq ▸ hvmem)⟩
  · decide

/-- Witness for collision_resolves_by_list_order at the concrete legal
list whose two cards collide after normalization. -/
theorem collision_resolves_witness :
    ∃ v preE postE,
      findValidCard "CARD!!" ["Card #1", "Card #2"] = some v ∧
      ["Card #1", "Card #2"] = preE ++ v :: postE ∧
      normalize_card_name v = normalize_card_name "CARD!!" ∧
      (∀ x ∈ preE, normalize_card_name x ≠ normalize_card_name "CARD!!") ∧
      v ≠ "Card #2" :=
  collision_resolves_by_list_order.1 ["Card #1", "Card #2"] [] [] []
    "Card #1" "Card #2" "CARD!!" rfl (by decide) (by decide) (by decide)
    (by decide)

/-- C7 (evaluating the code at the failing input): an agent that always
answers JSON lacking the card field.  handle_model_interaction consults
only the single transport result, and the returned rationale is the
single-attempt string: it contains the marker Random selection and the
raw output, but no attempt count at all (no digit 1 and no phrase
"after 3 attempts" as the test-suite expects). -/
theorem fallback_single_attempt_eval :
    handle_model_interaction sampleJsonLoads (some badMr)
        ["Card A", "Card B"] "Card A" "Random selection"
      = ("Card A",
         "Random selection (model failed: Response must contain \x27reasoning\x27 and \x27card\x27 fields)\nRaw response: \x7b\"reasoning\": \"r\"\x7d",
         some ⟨"tests/test8.log"⟩)
    ∧ strContains
        (handle_model_interaction sampleJsonLoads (some badMr)
          ["Card A", "Card B"] "Card A" "Random selection").2.1
        "Random selection" = true
    ∧ strContains
        (handle_model_interaction sampleJsonLoads (some badMr)
          ["Card A", "Card B"] "Card A" "Random selection").2.1
        "1" = false
    ∧ strContains
        (handle_model_interaction sampleJsonLoads (some badMr)
          ["Card A", "Card B"] "Card A" "Random selection").2.1
        "after 3 attempts" = false := by
  refine ⟨rfl, by decide, by decide, by decide⟩

/-- Model of Deck from benchmark/game.py: a draw pile and a discard
pile, both ordered lists of card names. -/
structure Deck where
  draw_pile : List String := []
  discard_pile : List String := []
deriving DecidableEq, Repr

/-- Model of Deck.draw.  Python pops from the END of draw_pile; when the
draw pile is empty but the discard pile is not, random.shuffle (the
explicit shuffle parameter) permutes the discard pile into the draw pile
and the discard pile is cleared; when both piles are empty Python raises
ValueError("No cards left in deck"), modelled by none.  If the shuffle
parameter failed to keep a nonempty list nonempty the pop would fail;
that branch (unreachable for a permutation) is also modelled by none. -/
def Deck.drawWith (shuffle : List String → List String) (d : Deck) :
    Option (String × Deck) :=
  if d.draw_pile.isEmpty && d.discard_pile.isEmpty then none
  else
    let pile := if d.draw_pile.isEmpty then shuffle d.discard_pile else d.draw_pile
    let disc := if d.draw_pile.isEmpty then [] else d.discard_pile
    match pile.getLast? with
    | some c => some (c, { draw_pile := pile.dropLast, discard_pile := disc })
    | none => none

/-- Model of Deck.discard: append the card to the discard pile. -/
def Deck.discard (d : Deck) (card : String) : Deck :=
  { d with discard_pile := d.discard_pile ++ [card] }

/-- A function models random.shuffle when every output is a permutation
of the input. -/
def IsShuffle (shuffle : List String → List String) : Prop :=
  ∀ l, List.Perm (shuffle l) l

/-- Model of PlayerMove from benchmark/game.py. -/
structure PlayerMove where
  played_card : String
  thinking : String
  drawn_card : String
  log_path : StrOrPath
  raw_response : Option String := none
deriving DecidableEq, Repr

/-- Model of JudgeDecision from benchmark/game.py. -/
structure JudgeDecision where
  winning_card : String
  winning_player : Nat
  reasoning : String
  log_path : StrOrPath
  raw_response : Option String := none
deriving DecidableEq, Repr

/-- Model of Round from benchmark/game.py; moves is a Python dict from
player index to move, modelled as an association list in insertion
order. -/
structure Round where
  round_number : Nat
  green_card : String
  judge : Nat
  moves : List (Nat × PlayerMove) := []
  decision : Option JudgeDecision := none
deriving DecidableEq, Repr

/-- Model of Player from benchmark/game.py. -/
structure Player where
  name : String
  hand : List String := []
  won_rounds : List Nat := []
deriving DecidableEq, Repr

/-- Model of BenchmarkStats from benchmark/game.py; model_stats is a
dict from model name to a dict with the keys cost and calls. -/
structure BenchmarkStats where
  start_time : Option Float := none
  end_time : Option Float := none
  total_cost : Float := 0.0
  model_stats : List (String × List (String × Float)) := []

/-- Model of BenchmarkStats.add_response: accumulate the total cost and
the per-model cost and call count. -/
def BenchmarkStats.add_response (s : BenchmarkStats) (r : ModelResponse) :
    BenchmarkStats :=
  let s := { s with total_cost := s.total_cost + r.total_cost }
  let stats :=
    if (s.model_stats.find? (fun kv => kv.1 == r.model)).isSome then s.model_stats
    else s.model_stats ++ [(r.model, [("cost", (0.0 : Float)), ("calls", (0.0 : Float))])]
  let stats := stats.map (fun kv =>
    if kv.1 == r.model then
      (kv.1, kv.2.map (fun cv =>
        if cv.1 == "cost" then (cv.1, cv.2 + r.total_cost)
        else if cv.1 == "calls" then (cv.1, cv.2 + (1.0 : Float))
        else cv))
    else kv)
  { s with model_stats := stats }

/-- Model of Game from benchmark/game.py.  players is a Python dict from
player index to Player; new_game always keys it with the consecutive
indices 0..n-1 in insertion order, so it is modelled as a list indexed
by player index. -/
structure Game where
  version : String := "1.0"
  players : List Player
  rounds : List Round := []
  current_round : Option Nat := none
  total_rounds : Int
  red_deck : Deck := {}
  green_deck : Deck := {}
  benchmark_stats : BenchmarkStats := {}

/-- Errors raised by the game state machine: the ValueError messages of
benchmark/game.py, plus keyError for the KeyError/IndexError lookup
failures and zeroDiv for a modulo by zero, which are distinct exception
types in Python. -/
inductive GameError where
  | noActiveRound
  | deckExhausted (color : String)
  | judgeCannotPlay (name : String)
  | alreadyPlayed (name : String)
  | cardNotInHand (card name : String)
  | waitingFor (names : List String)
  | cardNotPlayed (card : String)
  | keyError
  | zeroDiv
deriving DecidableEq, Repr

/-- Classification of the errors the specification calls InvalidMove:
every ValueError raised by a rule check, as opposed to deck exhaustion
or a failed lookup. -/
def GameError.isInvalidMove : GameError → Bool
  | .noActiveRound | .judgeCannotPlay _ | .alreadyPlayed _
  | .cardNotInHand _ _ | .waitingFor _ | .cardNotPlayed _ => true
  | .deckExhausted _ | .keyError | .zeroDiv => false

/-- Key membership in a round's moves dict (Python: player_index in
current_round.moves). -/
def movesContains (moves : List (Nat × PlayerMove)) (i : Nat) : Bool :=
  (moves.find? (fun kv => kv.1 == i)).isSome

/-- The key list of a round's moves dict, in insertion order. -/
def movesKeys (moves : List (Nat × PlayerMove)) : List Nat :=
  moves.map (fun kv => kv.1)

/-- Name lookup self.players[i].name for an index known to be in range
(out of range gives the empty string; Python would raise KeyError). -/
def Game.playerName (g : Game) (i : Nat) : String :=
  match g.players[i]? with
  | some p => p.name
  | none => ""

/-- The log path recorded with a move or decision: Path("benchmark/logs/
no_log.txt") when no model response is supplied, otherwise the
response's log path if set (model_response.log_path or log_path). -/
def resolveLogPath (model_response : Option ModelResponse) : PyPath :=
  match model_response with
  | some mr => mr.log_path.getD ⟨"benchmark/logs/no_log.txt"⟩
  | none => ⟨"benchmark/logs/no_log.txt"⟩

/-- The benchmark stats after an optional model response is recorded
(the if model_response block shared by play_card and judge_round). -/
def recordStats (stats : BenchmarkStats) (model_response : Option ModelResponse) :
    BenchmarkStats :=
  match model_response with
  | some mr => stats.add_response mr
  | none => stats

/-- Model of Game.play_card from benchmark/game.py.  The checks and the
mutation sequence are translated in source order; the error carries the
game state at the moment the Python exception would propagate (every
raise in play_card happens before any mutation).  Python looks up
self.players[player_index] before the judge check, raising KeyError for
an unknown index unless the no-active-round check fired first. -/
def Game.play_card (shuffle : List String → List String) (player_index : Nat)
    (card : String) (thinking : String) (model_response : Option ModelResponse)
    (g : Game) : Except (GameError × Game) Game :=
  match g.current_round with
  | none => .error (.noActiveRound, g)
  | some cr =>
    if g.rounds.length ≤ cr then .error (.noActiveRound, g)
    else
      match g.rounds[cr]?, g.players[player_index]? with
      | some current_round, some player =>
        if player_index = current_round.judge then
          .error (.judgeCannotPlay player.name, g)
        else if movesContains current_round.moves player_index then
          .error (.alreadyPlayed player.name, g)
        else if !(player.hand.contains card) then
          .error (.cardNotInHand card player.name, g)
        else
          match g.red_deck.drawWith shuffle with
          | none => .error (.deckExhausted "red", g)
          | some (new_card, deck1) =>
            let player1 := { player with hand := (player.hand.erase card) ++ [new_card] }
            let deck2 := deck1.discard card
            let mv : PlayerMove :=
              { played_card := card, thinking := thinking, drawn_card := new_card
                log_path := .path (resolveLogPath model_response)
                raw_response := model_response.map (fun mr => mr.content) }
            let round1 :=
              { current_round with
                moves := current_round.moves ++ [(player_index, mv)] }
            .ok { g with
                  players := g.players.set player_index player1
                  red_deck := deck2
                  benchmark_stats := recordStats g.benchmark_stats model_response
                  rounds := g.rounds.set cr round1 }
      | _, _ => .error (.keyError, g)

/-- Model of Game.judge_round from benchmark/game.py.  The only state
check is current_round is None (an out-of-range index then raises
IndexError, modelled as keyError); the completeness check compares the
move keys with all players except the judge as sets, reporting the
names of the players still missing; nothing checks that the round is
still open.  The winner lookup scans the moves dict in insertion order
for the first matching played card.  Python appends to the winner's
won_rounds only after the decision has been attached, so the
(unreachable) KeyError branch carries the decision-mutated state. -/
def nonJudgeList (playerCount : Nat) (judge : Nat) : List Nat :=
  (List.range playerCount).filter (fun i => decide (i ≠ judge))

/-- The JudgeDecision record constructed by judge_round. -/
def mkJudgeDecision (winning_card reasoning : String)
    (model_response : Option ModelResponse) (winning_player : Nat) : JudgeDecision :=
  { winning_card := winning_card, winning_player := winning_player
    reasoning := reasoning
    log_path := .path (resolveLogPath model_response)
    raw_response := model_response.map (fun mr => mr.content) }

def Game.judge_round (winning_card reasoning : String)
    (model_response : Option ModelResponse) (g : Game) :
    Except (GameError × Game) Game :=
  match g.current_round with
  | none => .error (.noActiveRound, g)
  | some cr =>
    match g.rounds[cr]? with
    | none => .error (.keyError, g)
    | some current_round =>
      if (movesKeys current_round.moves).all
            (fun k => (nonJudgeList g.players.length current_round.judge).contains k)
          && (nonJudgeList g.players.length current_round.judge).all
            (fun k => (movesKeys current_round.moves).contains k) then
        match current_round.moves.find? (fun kv => kv.2.played_card == winning_card) with
        | none => .error (.cardNotPlayed winning_card, g)
        | some (winning_player, _) =>
          match g.players[winning_player]? with
          | none =>
            .error (.keyError,
              { g with
                rounds := g.rounds.set cr { current_round with
                  decision := some (mkJudgeDecision winning_card reasoning
                    model_response winning_player) }
                benchmark_stats := recordStats g.benchmark_stats model_response })
          | some p =>
            .ok { g with
                  rounds := g.rounds.set cr { current_round with
                    decision := some (mkJudgeDecision winning_card reasoning
                      model_response winning_player) }
                  benchmark_stats := recordStats g.benchmark_stats model_response
                  players := g.players.set winning_player
                    { p with won_rounds := p.won_rounds ++ [cr] } }
      else
        .error (.waitingFor (((nonJudgeList g.players.length current_round.judge).filter
          (fun i => !(movesContains current_round.moves i))).map
            (fun i => g.playerName i)), g)

/-- Model of Game.start_round from benchmark/game.py.  There is no check
that the previous round is closed: the method always draws a green card
(ValueError "No more green cards in deck" when the green deck is empty),
then computes judge = len(rounds) mod player count (a Python
ZeroDivisionError when there are no players, raised after the green
card has already been drawn), appends the new open round and makes it
current. -/
def Game.start_round (shuffle : List String → List String) (g : Game) :
    Except (GameError × Game) Game :=
  match g.green_deck.drawWith shuffle with
  | none => .error (.deckExhausted "green", g)
  | some (green_card, gd) =>
    if g.players.length = 0 then .error (.zeroDiv, { g with green_deck := gd })
    else
      .ok { g with
            green_deck := gd
            rounds := g.rounds ++
              [{ round_number := g.rounds.length, green_card := green_card
                 judge := g.rounds.length % g.players.length }]
            current_round := some g.rounds.length }

/-- Deal cards_per_hand cards for one player, in draw order (the Python
list comprehension in new_game). -/
def dealHand (shuffle : List String → List String) :
    Nat → Deck → Option (List String × Deck)
  | 0, d => some ([], d)
  | k + 1, d =>
    match d.drawWith shuffle with
    | none => none
    | some (c, d1) =>
      match dealHand shuffle k d1 with
      | none => none
      | some (h, d2) => some (c :: h, d2)

/-- Deal hands to each named player in order (the enumerate loop in
new_game). -/
def dealPlayers (shuffle : List String → List String) (cards_per_hand : Nat) :
    List String → Deck → Option (List Player × Deck)
  | [], d => some ([], d)
  | name :: rest, d =>
    match dealHand shuffle cards_per_hand d with
    | none => none
    | some (h, d1) =>
      match dealPlayers shuffle cards_per_hand rest d1 with
      | none => none
      | some (ps, d2) => some ({ name := name, hand := h } :: ps, d2)

/-- Model of Game.new_game from benchmark/game.py.  Deck.from_file loads
and shuffles the two card files; the shuffled contents are the
red_cards and green_cards parameters.  Dealing draws cards_per_hand
cards per player from the red deck; a ValueError from an exhausted deck
aborts new_game (modelled by none). -/
def initGame (shuffle : List String → List String) (player_names : List String)
    (total_rounds : Int) (cards_per_hand : Nat)
    (red_cards green_cards : List String) : Option Game :=
  match dealPlayers shuffle cards_per_hand player_names { draw_pile := red_cards } with
  | none => none
  | some (players, red_deck) =>
    some { players := players
           red_deck := red_deck
           green_deck := { draw_pile := green_cards }
           current_round := some 0
           total_rounds := total_rounds }

/-- Game states reachable through the state machine: the result of a
successful new_game followed by any sequence of successful start_round,
play_card and judge_round operations, with every shuffle a permutation.
The parameter n is the configured deal size (cards_per_hand). -/
inductive Reachable (n : Nat) : Game → Prop where
  | init (shuffle : List String → List String) (player_names : List String)
      (total_rounds : Int) (red_cards green_cards : List String) (g : Game) :
      IsShuffle shuffle →
      initGame shuffle player_names total_rounds n red_cards green_cards = some g →
      Reachable n g
  | start (g g1 : Game) (shuffle : List String → List String) :
      Reachable n g → IsShuffle shuffle →
      g.start_round shuffle = .ok g1 → Reachable n g1
  | play (g g1 : Game) (shuffle : List String → List String) (player_index : Nat)
      (card thinking : String) (mr : Option ModelResponse) :
      Reachable n g → IsShuffle shuffle →
      g.play_card shuffle player_index card thinking mr = .ok g1 → Reachable n g1
  | judge (g g1 : Game) (winning_card reasoning : String) (mr : Option ModelResponse) :
      Reachable n g →
      g.judge_round winning_card reasoning mr = .ok g1 → Reachable n g1

/-- Invariant of reachable game states: all hands have the configured
deal size; current_round is set and indexes the last round (0 with no
rounds yet); a closed current round has a move from every non-judge
player; every recorded log path is a Path value, never a raw string. -/
structure GameInv (n : Nat) (g : Game) : Prop where
  hands : ∀ p ∈ g.players, p.hand.length = n
  cr : ∃ k, g.current_round = some k ∧
      ((g.rounds = [] ∧ k = 0) ∨ k + 1 = g.rounds.length)
  closedFull : ∀ k rd, g.current_round = some k → g.rounds[k]? = some rd →
      rd.decision.isSome → ∀ p, p < g.players.length → p ≠ rd.judge →
      movesContains rd.moves p
  pathsOk : ∀ rd ∈ g.rounds,
      (∀ kv ∈ rd.moves, ∃ q, kv.2.log_path = StrOrPath.path q) ∧
      (∀ d, rd.decision = some d → ∃ q, d.log_path = StrOrPath.path q)

/-- The identity function is a model of a (trivial) shuffle. -/
theorem isShuffle_id : IsShuffle id := fun l => List.Perm.refl l

/-- Concrete two-player game immediately after new_game with one card
per hand: the deal pops from the end of the red pile. -/
def sampleG0 : Game :=
  { players := [{ name := "Alice", hand := ["r4"] }, { name := "Bob", hand := ["r3"] }]
    current_round := some 0
    total_rounds := 2
    red_deck := { draw_pile := ["r1", "r2"] }
    green_deck := { draw_pile := ["g1", "g2"] } }

/-- The sample game after start_round: round 0 is open with judge 0 and
green card g2. -/
def sampleG1 : Game :=
  { sampleG0 with
    rounds := [{ round_number := 0, green_card := "g2", judge := 0 }]
    green_deck := { draw_pile := ["g1"] } }

/-- The sample game after Bob (player 1) plays r3 and draws r2. -/
def sampleG2 : Game :=
  { sampleG1 with
    players := [{ name := "Alice", hand := ["r4"] }, { name := "Bob", hand := ["r2"] }]
    red_deck := { draw_pile := ["r1"], discard_pile := ["r3"] }
    rounds := [{ round_number := 0, green_card := "g2", judge := 0
                 moves := [(1, { played_card := "r3", thinking := "think"
                                 drawn_card := "r2"
                                 log_path := .path ⟨"benchmark/logs/no_log.txt"⟩ })] }] }

/-- The sample game after the judge closes round 0 in favour of r3. -/
def sampleG3 : Game :=
  { sampleG2 with
    players := [{ name := "Alice", hand := ["r4"] },
                { name := "Bob", hand := ["r2"], won_rounds := [0] }]
    rounds := [{ round_number := 0, green_card := "g2", judge := 0
                 moves := [(1, { played_card := "r3", thinking := "think"
                                 drawn_card := "r2"
                                 log_path := .path ⟨"benchmark/logs/no_log.txt"⟩ })]
                 decision := some { winning_card := "r3", winning_player := 1
                                    reasoning := "reason"
                                    log_path := .path ⟨"benchmark/logs/no_log.txt"⟩ } }] }

theorem sample_init :
    initGame id ["Alice", "Bob"] 2 1 ["r1", "r2", "r3", "r4"] ["g1", "g2"]
      = some sampleG0 := rfl

theorem sample_start : sampleG0.start_round id = .ok sampleG1 := rfl

theorem sample_play : sampleG1.play_card id 1 "r3" "think" none = .ok sampleG2 := rfl

theorem sample_judge : sampleG2.judge_round "r3" "reason" none = .ok sampleG3 := rfl

theorem sampleG0_reachable : Reachable 1 sampleG0 :=
  .init id ["Alice", "Bob"] 2 ["r1", "r2", "r3", "r4"] ["g1", "g2"] sampleG0
    isShuffle_id sample_init

theorem sampleG1_reachable : Reachable 1 sampleG1 :=
  .start sampleG0 sampleG1 id sampleG0_reachable isShuffle_id sample_start

theorem sampleG2_reachable : Reachable 1 sampleG2 :=
  .play sampleG1 sampleG2 id 1 "r3" "think" none sampleG1_reachable isShuffle_id
    sample_play

theorem sampleG3_reachable : Reachable 1 sampleG3 :=
  .judge sampleG2 sampleG3 "r3" "reason" none sampleG2_reachable sample_judge

/-- Success shape of play_card: every guard passed and the new state is
exactly the translated mutation. -/
theorem play_card_ok_shape {sh : List String → List String} {i : Nat}
    {card th : String} {mr : Option ModelResponse} {g g1 : Game}
    (h : Game.play_card sh i card th mr g = .ok g1) :
    ∃ cr rd pl new_card deck1,
      g.current_round = some cr ∧ cr < g.rounds.length ∧
      g.rounds[cr]? = some rd ∧ g.players[i]? = some pl ∧
      i ≠ rd.judge ∧ movesContains rd.moves i = false ∧
      pl.hand.contains card = true ∧
      g.red_deck.drawWith sh = some (new_card, deck1) ∧
      g1 = { g with
             players := g.players.set i
               { pl with hand := (pl.hand.erase card) ++ [new_card] }
             red_deck := deck1.discard card
             benchmark_stats := recordStats g.benchmark_stats mr
             rounds := g.rounds.set cr
               { rd with moves := rd.moves ++
                   [(i, { played_card := card, thinking := th, drawn_card := new_card
                          log_path := .path (resolveLogPath mr)
                          raw_response := mr.map (fun m => m.content) })] } } := by
  unfold Game.play_card at h
  split at h
  · simp at h
  · rename_i cr hcr
    split at h
    · simp at h
    · rename_i hlen
      split at h
      · rename_i rd pl hrd hpl
        split at h
        · simp at h
        · split at h
          · simp at h
          · split at h
            · simp at h
            · rename_i hjudge hmoves hhand
              split at h
              · simp at h
              · rename_i new_card deck1 hdraw
                refine ⟨cr, rd, pl, new_card, deck1, hcr, by omega, hrd, hpl,
                  hjudge, by simpa using hmoves, by simpa using hhand, hdraw, ?_⟩
                simpa using h.symm
      · simp at h

/-- Every error branch of play_card leaves the game unchanged: all
raises happen before any mutation. -/
theorem play_card_error_state {sh : List String → List String} {i : Nat}
    {card th : String} {mr : Option ModelResponse} {g g1 : Game} {e : GameError}
    (h : Game.play_card sh i card th mr g = .error (e, g1)) : g1 = g := by
  unfold Game.play_card at h
  split at h
  · simp at h; exact h.2.symm
  · split at h
    · simp at h; exact h.2.symm
    · split at h
      · split at h
        · simp at h; exact h.2.symm
        · split at h
          · simp at h; exact h.2.symm
          · split at h
            · simp at h; exact h.2.symm
            · split at h
              · simp at h; exact h.2.symm
              · simp at h
      · simp at h; exact h.2.symm

/-- Key membership in a moves dict: there is a binding with that key. -/
theorem movesContains_true_iff (m : List (Nat × PlayerMove)) (p : Nat) :
    movesContains m p = true ↔ ∃ kv ∈ m, kv.1 = p := by
  unfold movesContains
  constructor
  · intro h
    obtain ⟨kv, hkv⟩ := Option.isSome_iff_exists.mp h
    exact ⟨kv, List.mem_of_find?_eq_some hkv, by simpa using List.find?_some hkv⟩
  · rintro ⟨kv, hmem, hk⟩
    rw [List.find?_isSome]
    exact ⟨kv, hmem, by simpa using hk⟩

/-- Membership in the key list of a moves dict. -/
theorem keysContains_iff (m : List (Nat × PlayerMove)) (p : Nat) :
    (movesKeys m).contains p = true ↔ ∃ kv ∈ m, kv.1 = p := by
  unfold movesKeys
  constructor
  · intro h
    have hp : p ∈ m.map (fun kv => kv.1) := by simpa using h
    obtain ⟨kv, hkv, he⟩ := List.mem_map.mp hp
    exact ⟨kv, hkv, he⟩
  · rintro ⟨kv, hmem, hk⟩
    have : p ∈ m.map (fun kv => kv.1) := List.mem_map.mpr ⟨kv, hmem, hk⟩
    simpa using this

/-- Appending new moves preserves key membership. -/
theorem movesContains_append_left (m1 m2 : List (Nat × PlayerMove)) (p : Nat)
    (h : movesContains m1 p = true) : movesContains (m1 ++ m2) p = true := by
  rw [movesContains_true_iff] at *
  obtain ⟨kv, hmem, hk⟩ := h
  exact ⟨kv, List.mem_append_left _ hmem, hk⟩

/-- A successful dealHand returns exactly the requested number of
cards. -/
theorem dealHand_length {sh : List String → List String} :
    ∀ (k : Nat) (d : Deck) (h : List String) (d1 : Deck),
      dealHand sh k d = some (h, d1) → h.length = k := by
  intro k
  induction k with
  | zero => intro d h d1 hd; simp [dealHand] at hd; simp [hd.1.symm]
  | succ k ih =>
    intro d h d1 hd
    unfold dealHand at hd
    split at hd
    · simp at hd
    · rename_i c d2 hdraw
      split at hd
      · simp at hd
      · rename_i h2 d3 hdeal
        simp at hd
        rw [← hd.1]
        simp [ih d2 h2 d3 hdeal]

/-- Every hand produced by dealPlayers has the requested size. -/
theorem dealPlayers_hands {sh : List String → List String} {cph : Nat} :
    ∀ (names : List String) (d : Deck) (ps : List Player) (d1 : Deck),
      dealPlayers sh cph names d = some (ps, d1) → ∀ p ∈ ps, p.hand.length = cph := by
  intro names
  induction names with
  | nil =>
    intro d ps d1 h p hp
    simp [dealPlayers] at h
    rw [h.1] at hp
    simp at hp
  | cons name rest ih =>
    intro d ps d1 h p hp
    unfold dealPlayers at h
    split at h
    · simp at h
    · rename_i hand d2 hdeal
      split at h
      · simp at h
      · rename_i ps2 d3 hrest
        simp at h
        rw [← h.1] at hp
        rcases List.mem_cons.mp hp with hp | hp
        · subst hp; exact dealHand_length cph d hand d2 hdeal
        · exact ih d2 ps2 d3 hrest p hp

/-- The invariant holds immediately after a successful new_game. -/
theorem initGame_inv {sh : List String → List String} {names : List String}
    {tr : Int} {n : Nat} {red green : List String} {g : Game}
    (h : initGame sh names tr n red green = some g) : GameInv n g := by
  unfold initGame at h
  split at h
  · simp at h
  · rename_i ps deck hdeal
    simp at h
    subst h
    constructor
    · intro p hp
      exact dealPlayers_hands names _ ps deck hdeal p hp
    · exact ⟨0, rfl, Or.inl ⟨rfl, rfl⟩⟩
    · intro k rd hck hrd
      simp at hrd
    · intro rd hrd
      simp at hrd

/-- Success shape of start_round: the green card was drawn, there is at
least one player, and the new state appends the new open round and
makes it current. -/
theorem start_round_ok_shape {sh : List String → List String} {g g1 : Game}
    (h : g.start_round sh = .ok g1) :
    ∃ green_card gd,
      g.green_deck.drawWith sh = some (green_card, gd) ∧
      0 < g.players.length ∧
      g1 = { g with
             green_deck := gd
             rounds := g.rounds ++
               [{ round_number := g.rounds.length, green_card := green_card
                  judge := g.rounds.length % g.players.length }]
             current_round := some g.rounds.length } := by
  unfold Game.start_round at h
  split at h
  · simp at h
  · rename_i green_card gd hdraw
    split at h
    · simp at h
    · rename_i hlen
      refine ⟨green_card, gd, hdraw, by omega, ?_⟩
      simpa using h.symm

/-- start_round preserves the invariant. -/
theorem start_round_inv {n : Nat} {g g1 : Game} {sh : List String → List String}
    (inv : GameInv n g) (h : g.start_round sh = .ok g1) : GameInv n g1 := by
  obtain ⟨gc, gd, hdraw, hpos, rfl⟩ := start_round_ok_shape h
  constructor
  · intro p hp; exact inv.hands p hp
  · exact ⟨g.rounds.length, rfl, Or.inr (by simp)⟩
  · intro k rd hck hrd hdec
    simp at hck
    subst hck
    rw [List.getElem?_concat_length] at hrd
    cases hrd
    simp at hdec
  · intro rd hrd
    rcases List.mem_append.mp hrd with hrd | hrd
    · exact inv.pathsOk rd hrd
    · simp at hrd
      subst hrd
      exact ⟨by simp, by simp⟩

/-- play_card preserves the invariant. -/
theorem play_card_inv {n : Nat} {g g1 : Game} {sh : List String → List String}
    {i : Nat} {card th : String} {mr : Option ModelResponse}
    (inv : GameInv n g) (h : g.play_card sh i card th mr = .ok g1) : GameInv n g1 := by
  obtain ⟨cr, rd, pl, nc, d1, hcr, hlen, hrd, hpl, hj, hm, hh, hdraw, rfl⟩ :=
    play_card_ok_shape h
  have hplmem : pl ∈ g.players := List.getElem?_mem hpl
  have hcard : card ∈ pl.hand := by simpa using hh
  have hrdmem : rd ∈ g.rounds := List.getElem?_mem hrd
  constructor
  · intro p hp
    rcases List.mem_or_eq_of_mem_set hp with hp | hp
    · exact inv.hands p hp
    · subst hp
      have hn : pl.hand.length = n := inv.hands pl hplmem
      have hpos : 0 < pl.hand.length := List.length_pos.mpr (by
        intro hnil; rw [hnil] at hcard; simp at hcard)
      simp [List.length_erase_of_mem hcard, hn]
      omega
  · obtain ⟨k, hk, hd⟩ := inv.cr
    refine ⟨k, hk, ?_⟩
    rcases hd with ⟨hnil, _⟩ | hlast
    · rw [hnil] at hlen; simp at hlen
    · right; simpa using hlast
  · intro k rd2 hck hrd2 hdec p hplt hpj
    have hkcr : k = cr := by
      rw [hcr] at hck; cases hck; rfl
    subst hkcr
    rw [List.getElem?_set_eq (by simpa using hlen)] at hrd2
    cases hrd2
    simp only [List.length_set] at hplt
    have := inv.closedFull k rd hcr hrd (by simpa using hdec) p hplt (by simpa using hpj)
    exact movesContains_append_left _ _ _ this
  · intro rd2 hrd2
    rcases List.mem_or_eq_of_mem_set hrd2 with hold | hnew
    · exact inv.pathsOk _ hold
    · subst hnew
      obtain ⟨hmv, hdc⟩ := inv.pathsOk rd hrdmem
      refine ⟨?_, by simpa using hdc⟩
      intro kv hkv
      rcases List.mem_append.mp hkv with hkv | hkv
      · exact hmv kv hkv
      · simp at hkv
        subst hkv
        exact ⟨_, rfl⟩

/-- Success shape of judge_round: the completeness check passed, the
winner is the first move with the winning card, and the new state
attaches the decision and appends the round index to the winner's
won_rounds. -/
theorem judge_round_ok_shape {wc rs : String} {mr : Option ModelResponse}
    {g g1 : Game} (h : g.judge_round wc rs mr = .ok g1) :
    ∃ cr rd winner wmv p,
      g.current_round = some cr ∧ g.rounds[cr]? = some rd ∧
      ((movesKeys rd.moves).all
          (fun k => (nonJudgeList g.players.length rd.judge).contains k)
        && (nonJudgeList g.players.length rd.judge).all
          (fun k => (movesKeys rd.moves).contains k)) = true ∧
      rd.moves.find? (fun kv => kv.2.played_card == wc) = some (winner, wmv) ∧
      g.players[winner]? = some p ∧
      g1 = { g with
             rounds := g.rounds.set cr { rd with
               decision := some (mkJudgeDecision wc rs mr winner) }
             benchmark_stats := recordStats g.benchmark_stats mr
             players := g.players.set winner
               { p with won_rounds := p.won_rounds ++ [cr] } } := by
  unfold Game.judge_round at h
  split at h
  · simp at h
  · rename_i cr hcr
    split at h
    · simp at h
    · rename_i rd hrd
      split at h
      · rename_i hcheck
        split at h
        · simp at h
        · rename_i winner wmv hfind
          split at h
          · simp at h
          · rename_i p hp
            exact ⟨cr, rd, winner, wmv, p, hcr, hrd, hcheck, hfind, hp,
              by simpa using h.symm⟩
      · simp at h

/-- judge_round preserves the invariant. -/
theorem judge_round_inv {n : Nat} {g g1 : Game} {wc rs : String}
    {mr : Option ModelResponse}
    (inv : GameInv n g) (h : g.judge_round wc rs mr = .ok g1) : GameInv n g1 := by
  obtain ⟨cr, rd, winner, wmv, p, hcr, hrd, hcheck, hfind, hp, rfl⟩ :=
    judge_round_ok_shape h
  have hpmem : p ∈ g.players := List.getElem?_mem hp
  have hrdmem : rd ∈ g.rounds := List.getElem?_mem hrd
  have hcrlen : cr < g.rounds.length := by
    by_contra hge
    push_neg at hge
    rw [List.getElem?_eq_none hge] at hrd
    simp at hrd
  constructor
  · intro q hq
    rcases List.mem_or_eq_of_mem_set hq with hq | hq
    · exact inv.hands q hq
    · subst hq
      exact inv.hands p hpmem
  · obtain ⟨k, hk, hd⟩ := inv.cr
    refine ⟨k, hk, ?_⟩
    rcases hd with ⟨hnil, _⟩ | hlast
    · rw [hnil] at hcrlen; simp at hcrlen
    · right; simpa using hlast
  · intro k rd2 hck hrd2 hdec q hqlt hqj
    have hkcr : k = cr := by
      rw [hcr] at hck; cases hck; rfl
    subst hkcr
    rw [List.getElem?_set_eq (by simpa using hcrlen)] at hrd2
    cases hrd2
    simp only [List.length_set] at hqlt
    have hcheck2 := (Bool.and_eq_true _ _).mp hcheck
    have hq_nonjudge : q ∈ nonJudgeList g.players.length rd.judge := by
      unfold nonJudgeList
      rw [List.mem_filter]
      exact ⟨List.mem_range.mpr hqlt, by simpa using hqj⟩
    have := (List.all_eq_true.mp hcheck2.2) q hq_nonjudge
    rw [keysContains_iff] at this
    exact (movesContains_true_iff _ _).mpr this
  · intro rd2 hrd2
    rcases List.mem_or_eq_of_mem_set hrd2 with hold | hnew
    · exact inv.pathsOk _ hold
    · subst hnew
      obtain ⟨hmv, _⟩ := inv.pathsOk rd hrdmem
      refine ⟨hmv, ?_⟩
      intro d hd
      cases hd
      exact ⟨_, rfl⟩

/-- Every reachable state satisfies the invariant. -/
theorem reachable_inv {n : Nat} {g : Game} (h : Reachable n g) : GameInv n g := by
  induction h with
  | init sh names tr red green g hsh hinit => exact initGame_inv hinit
  | start g g1 sh hre hsh hstep ih => exact start_round_inv ih hstep
  | play g g1 sh i card th mr hre hsh hstep ih => exact play_card_inv ih hstep
  | judge g g1 wc rs mr hre hstep ih => exact judge_round_inv ih hstep

/-- C3: hand-size invariant: in every reachable state (after the new_game
deal and after each completed state-machine operation) every player's
hand has exactly the configured deal size; and a successful play_card
removes exactly the played card and appends exactly the drawn
replacement, leaving the hand length unchanged. -/
theorem hand_size_invariant :
    (∀ (n : Nat) (g : Game), Reachable n g → ∀ p ∈ g.players, p.hand.length = n)
    ∧ (∀ (sh : List String → List String) (i : Nat) (card th : String)
        (mr : Option ModelResponse) (g g1 : Game),
        g.play_card sh i card th mr = .ok g1 →
        ∃ pl new_card,
          g.players[i]? = some pl ∧ card ∈ pl.hand ∧
          g1.players[i]? =
            some { pl with hand := (pl.hand.erase card) ++ [new_card] } ∧
          ((pl.hand.erase card) ++ [new_card]).length = pl.hand.length) := by
  constructor
  · intro n g hre p hp
    exact (reachable_inv hre).hands p hp
  · intro sh i card th mr g g1 h
    obtain ⟨cr, rd, pl, nc, d1, hcr, hlen, hrd, hpl, hj, hm, hh, hdraw, rfl⟩ :=
      play_card_ok_shape h
    have hcard : card ∈ pl.hand := by simpa using hh
    have hilt : i < g.players.length := by
      by_contra hge
      push_neg at hge
      rw [List.getElem?_eq_none hge] at hpl
      simp at hpl
    refine ⟨pl, nc, hpl, hcard, ?_, ?_⟩
    · simpa using List.getElem?_set_eq (l := g.players)
        (a := { pl with hand := (pl.hand.erase card) ++ [nc] }) hilt
    · have hpos : 0 < pl.hand.length := List.length_pos.mpr (by
        intro hnil; rw [hnil] at hcard; simp at hcard)
      simp [List.length_erase_of_mem hcard]
      omega

/-- Witness for hand_size_invariant on the concrete sample game: both
hands have size one after a full round, and the sample play replaced
exactly one card. -/
theorem hand_size_invariant_witness :
    (∀ p ∈ sampleG2.players, p.hand.length = 1)
    ∧ ∃ pl new_card,
        sampleG1.players[1]? = some pl ∧ "r3" ∈ pl.hand ∧
        sampleG2.players[1]? =
          some { pl with hand := (pl.hand.erase "r3") ++ [new_card] } ∧
        ((pl.hand.erase "r3") ++ [new_card]).length = pl.hand.length :=
  ⟨hand_size_invariant.1 1 sampleG2 sampleG2_reachable,
   hand_size_invariant.2 id 1 "r3" "think" none sampleG1 sampleG2 sample_play⟩

/-- The draw succeeds whenever some pile is nonempty and the shuffle is a
permutation. -/
theorem drawWith_isSome {sh : List String → List String} (hsh : IsShuffle sh)
    (d : Deck) (h : ¬ (d.draw_pile = [] ∧ d.discard_pile = [])) :
    ∃ c d1, d.drawWith sh = some (c, d1) := by
  have hne : (d.draw_pile.isEmpty && d.discard_pile.isEmpty) = false := by
    rw [Bool.and_eq_false_iff]
    rcases Decidable.em (d.draw_pile = []) with hdp | hdp
    · right
      rw [List.isEmpty_eq_false]
      intro hdc
      exact h ⟨hdp, hdc⟩
    · left
      rw [List.isEmpty_eq_false]
      exact hdp
  unfold Deck.drawWith
  rw [hne]
  simp only [Bool.false_eq_true, if_false]
  cases hdp : d.draw_pile.isEmpty with
  | false =>
    have : d.draw_pile ≠ [] := List.isEmpty_eq_false.mp hdp
    obtain ⟨c, hc⟩ := Option.isSome_iff_exists.mp (List.getLast?_isSome.mpr this)
    simp [hc]
  | true =>
    have hdpe : d.draw_pile = [] := by simpa using hdp
    have hdc : d.discard_pile ≠ [] := fun hdc => h ⟨hdpe, hdc⟩
    have hne2 : sh d.discard_pile ≠ [] := by
      intro he
      have := (hsh d.discard_pile).length_eq
      rw [he] at this
      exact hdc (List.eq_nil_of_length_eq_zero this.symm)
    obtain ⟨c, hc⟩ := Option.isSome_iff_exists.mp (List.getLast?_isSome.mpr hne2)
    simp [hc]

/-- C5: atomicity of play_card on deck exhaustion: when both red piles
are empty and every legality guard passes, play_card fails with the
deck-exhausted error and returns the state unchanged; and in general
every play_card error leaves the game exactly as it was (play_card is
all-or-nothing). -/
theorem play_card_atomic :
    (∀ (sh : List String → List String) (i : Nat) (card th : String)
        (mr : Option ModelResponse) (g : Game) (cr : Nat) (rd : Round) (pl : Player),
      g.red_deck.draw_pile = [] → g.red_deck.discard_pile = [] →
      g.current_round = some cr → cr < g.rounds.length →
      g.rounds[cr]? = some rd → g.players[i]? = some pl →
      i ≠ rd.judge → movesContains rd.moves i = false → card ∈ pl.hand →
      g.play_card sh i card th mr = .error (.deckExhausted "red", g))
    ∧ (∀ (sh : List String → List String) (i : Nat) (card th : String)
        (mr : Option ModelResponse) (g g1 : Game) (e : GameError),
      g.play_card sh i card th mr = .error (e, g1) → g1 = g) := by
  constructor
  · intro sh i card th mr g cr rd pl hdp hdc hcr hlt hrd hpl hj hm hcard
    have hcontains : pl.hand.contains card = true := by simpa using hcard
    have hdraw : g.red_deck.drawWith sh = none := by
      unfold Deck.drawWith
      rw [hdp, hdc]
      simp
    simp [Game.play_card, hcr, hrd, hpl, hj, hm, hcontains, hdraw,
      Nat.not_le.mpr hlt, hcard]
  · intro sh i card th mr g g1 e h
    exact play_card_error_state h

/-- A concrete state with both red piles empty in which player 1 may
legally play. -/
def gRedEmpty : Game :=
  { players := [{ name := "A", hand := ["c1"] }, { name := "B", hand := ["c2"] }]
    rounds := [{ round_number := 0, green_card := "g", judge := 0 }]
    current_round := some 0
    total_rounds := 1 }

/-- Witness for play_card_atomic: on the concrete empty-deck state the
legal play fails with the red-deck exhaustion error and the state is
returned unchanged. -/
theorem play_card_atomic_witness :
    gRedEmpty.play_card id 1 "c2" "t" none
      = .error (.deckExhausted "red", gRedEmpty) :=
  play_card_atomic.1 id 1 "c2" "t" none gRedEmpty 0
    { round_number := 0, green_card := "g", judge := 0 }
    { name := "B", hand := ["c2"] }
    rfl rfl rfl (by decide) rfl rfl (by decide) (by decide) (by decide)

/-- C8 counterexample: a reachable state whose current round is still
open (decision unset, one move recorded) on which start_round
nevertheless succeeds, appending a second round; the claimed failure on
an open round does not exist in the code. -/
theorem start_round_open_round_cex :
    (sampleG2.rounds[0]?.map (fun rd => rd.decision)) = some none
    ∧ Reachable 1 sampleG2
    ∧ sampleG2.start_round id = .ok
        { sampleG2 with
          green_deck := { draw_pile := [] }
          rounds := sampleG2.rounds ++
            [{ round_number := 1, green_card := "g1", judge := 1 }]
          current_round := some 1 } :=
  ⟨rfl, sampleG2_reachable, rfl⟩

/-- C8 (amended): start_round never checks for an open round.  It fails
with the topic-deck-exhausted error exactly when both green piles are
empty; otherwise (given at least one player and a permuting shuffle) it
always succeeds — whether or not a round is open — drawing one green
card, setting the new round's judge to len(rounds) mod player count,
appending the new open round, and making it current. -/
theorem start_round_contract :
    (∀ (sh : List String → List String) (g : Game),
      g.green_deck.draw_pile = [] → g.green_deck.discard_pile = [] →
      g.start_round sh = .error (.deckExhausted "green", g))
    ∧ (∀ (sh : List String → List String) (g : Game), IsShuffle sh →
      0 < g.players.length →
      ¬ (g.green_deck.draw_pile = [] ∧ g.green_deck.discard_pile = []) →
      ∃ green_card gd,
        g.green_deck.drawWith sh = some (green_card, gd) ∧
        g.start_round sh = .ok
          { g with
            green_deck := gd
            rounds := g.rounds ++
              [{ round_number := g.rounds.length, green_card := green_card
                 judge := g.rounds.length % g.players.length }]
            current_round := some g.rounds.length }) := by
  constructor
  · intro sh g hdp hdc
    have hdraw : g.green_deck.drawWith sh = none := by
      unfold Deck.drawWith
      rw [hdp, hdc]
      simp
    simp [Game.start_round, hdraw]
  · intro sh g hsh hpos hne
    obtain ⟨c, d1, hdraw⟩ := drawWith_isSome hsh g.green_deck hne
    refine ⟨c, d1, hdraw, ?_⟩
    simp [Game.start_round, hdraw, Nat.pos_iff_ne_zero.mp hpos]

/-- A concrete state whose green deck is exhausted. -/
def gNoGreen : Game :=
  { players := [{ name := "A" }]
    current_round := some 0
    total_rounds := 1 }

/-- Witness for start_round_contract: starting a round with an empty
green deck fails with the green-deck exhaustion error. -/
theorem start_round_contract_witness :
    gNoGreen.start_round id = .error (.deckExhausted "green", gNoGreen) :=
  start_round_contract.1 id gNoGreen rfl rfl

/-- The sample game after judge_round is called a second time on the
already-closed round 0: the decision is overwritten and the round is
scored again. -/
def sampleG4 : Game :=
  { sampleG3 with
    players := [{ name := "Alice", hand := ["r4"] },
                { name := "Bob", hand := ["r2"], won_rounds := [0, 0] }]
    rounds := [{ round_number := 0, green_card := "g2", judge := 0
                 moves := [(1, { played_card := "r3", thinking := "think"
                                 drawn_card := "r2"
                                 log_path := .path ⟨"benchmark/logs/no_log.txt"⟩ })]
                 decision := some { winning_card := "r3", winning_player := 1
                                    reasoning := "again"
                                    log_path := .path ⟨"benchmark/logs/no_log.txt"⟩ } }] }

/-- C9 counterexample: on a reachable state whose current round is
closed, a second judge_round call succeeds, overwrites the closed
round's decision and appends the round number to the winner's
won_rounds a second time — the closed round is not immutable and its
score bookkeeping is applied again. -/
theorem judge_round_rejudge_cex :
    Reachable 1 sampleG3
    ∧ (sampleG3.rounds[0]?.map (fun rd => rd.decision.isSome)) = some true
    ∧ sampleG3.judge_round "r3" "again" none = .ok sampleG4
    ∧ (sampleG4.rounds[0]?.map (fun rd => rd.decision))
        ≠ (sampleG3.rounds[0]?.map (fun rd => rd.decision))
    ∧ (sampleG4.players[1]?.map (fun p => p.won_rounds)) = some [0, 0] :=
  ⟨sampleG3_reachable, rfl, rfl, by decide, rfl⟩

/-- play_card returned an error carrying the unchanged state. -/
def isErrorUnchanged (r : Except (GameError × Game) Game) (g : Game) : Prop :=
  ∃ e, r = .error (e, g)

/-- C9 (amended): on a reachable state whose current round is closed,
every play_card call fails and leaves the state unchanged, and
start_round leaves all existing rounds untouched; but judge_round
called again on the closed current round is NOT rejected (see
judge_round_rejudge_cex): it overwrites the decision and appends the
round number to the winner's won_rounds a second time. -/
theorem closed_round_immutability_amended :
    (∀ (n : Nat) (g : Game) (cr : Nat) (rd : Round), Reachable n g →
      g.current_round = some cr → g.rounds[cr]? = some rd →
      rd.decision.isSome →
      ∀ (sh : List String → List String) (i : Nat) (card th : String)
        (mr : Option ModelResponse),
        isErrorUnchanged (g.play_card sh i card th mr) g)
    ∧ (∀ (sh : List String → List String) (g g1 : Game),
        g.start_round sh = .ok g1 →
        ∀ k, k < g.rounds.length → g1.rounds[k]? = g.rounds[k]?) := by
  constructor
  · intro n g cr rd hre hcr hrd hdec sh i card th mr
    cases hres : g.play_card sh i card th mr with
    | ok g1 =>
      exfalso
      obtain ⟨cr2, rd2, pl, nc, d1, hcr2, hlt2, hrd2, hpl, hj, hm, hh, hdraw, _⟩ :=
        play_card_ok_shape hres
      have hcc : cr2 = cr := by rw [hcr] at hcr2; cases hcr2; rfl
      subst hcc
      have hrr : rd2 = rd := by rw [hrd] at hrd2; cases hrd2; rfl
      subst hrr
      have hilt : i < g.players.length := by
        by_contra hge
        push_neg at hge
        rw [List.getElem?_eq_none hge] at hpl
        simp at hpl
      have := (reachable_inv hre).closedFull cr2 rd2 hcr hrd hdec i hilt hj
      rw [this] at hm
      simp at hm
    | error p =>
      obtain ⟨e, g1⟩ := p
      exact ⟨e, by rw [play_card_error_state hres]⟩
  · intro sh g g1 h k hk
    obtain ⟨gc, gd, hdraw, hpos, rfl⟩ := start_round_ok_shape h
    simp only []
    rw [List.getElem?_append]
    simp [hk]

/-- Witness for closed_round_immutability_amended: on the closed sample
round every play attempt by Bob fails with the state unchanged, and the
second round started from the closed state leaves round 0 as it was. -/
theorem closed_round_immutability_witness :
    isErrorUnchanged (sampleG3.play_card id 1 "r2" "t" none) sampleG3 :=
  closed_round_immutability_amended.1 1 sampleG3 0
    { round_number := 0, green_card := "g2", judge := 0
      moves := [(1, { played_card := "r3", thinking := "think"
                      drawn_card := "r2"
                      log_path := .path ⟨"benchmark/logs/no_log.txt"⟩ })]
      decision := some { winning_card := "r3", winning_player := 1
                         reasoning := "reason"
                         log_path := .path ⟨"benchmark/logs/no_log.txt"⟩ } }
    sampleG3_reachable rfl rfl rfl id 1 "r2" "t" none

/-- The round indexed by current_round, when both exist. -/
def Game.currentRoundVal (g : Game) : Option Round :=
  match g.current_round with
  | none => none
  | some k => g.rounds[k]?

/-- Forward evaluation of play_card when every guard passes and the draw
succeeds. -/
theorem play_card_ok_eval {sh : List String → List String} {i : Nat}
    {card th : String} {mr : Option ModelResponse} {g : Game} {cr : Nat}
    {rd : Round} {pl : Player} {nc : String} {d1 : Deck}
    (hcr : g.current_round = some cr) (hlt : cr < g.rounds.length)
    (hrd : g.rounds[cr]? = some rd) (hpl : g.players[i]? = some pl)
    (hj : i ≠ rd.judge) (hm : movesContains rd.moves i = false)
    (hcontains : pl.hand.contains card = true)
    (hdw : g.red_deck.drawWith sh = some (nc, d1)) :
    g.play_card sh i card th mr = .ok
      { g with
        players := g.players.set i { pl with hand := (pl.hand.erase card) ++ [nc] }
        red_deck := d1.discard card
        benchmark_stats := recordStats g.benchmark_stats mr
        rounds := g.rounds.set cr
          { rd with moves := rd.moves ++
              [(i, { played_card := card, thinking := th, drawn_card := nc
                     log_path := .path (resolveLogPath mr)
                     raw_response := mr.map (fun m => m.content) })] } } := by
  have hcard : card ∈ pl.hand := by simpa using hcontains
  simp [Game.play_card, hcr, hrd, hpl, hj, hm, hcontains, hdw, Nat.not_le.mpr hlt,
    hcard]

/-- C1: for a reachable game state and an existing player, play_card
fails with an InvalidMove error (a rule-check ValueError) exactly when
no round is open, or the player is the current round's judge, or the
player already has a move recorded in the current round, or the card is
not in the player's hand.  In particular it fails before any round has
been started (no current round value exists), fails for the judge, and
fails on a second play by the same player in a round. -/
theorem play_card_invalid_move_iff {n : Nat} {g : Game} (hre : Reachable n g)
    (sh : List String → List String) (i : Nat) (card th : String)
    (mr : Option ModelResponse) (hp : i < g.players.length) :
    (∃ e g1, g.play_card sh i card th mr = .error (e, g1) ∧ e.isInvalidMove = true)
    ↔ ((∀ rd, g.currentRoundVal = some rd → rd.decision.isSome)
       ∨ (∃ rd, g.currentRoundVal = some rd ∧ i = rd.judge)
       ∨ (∃ rd, g.currentRoundVal = some rd ∧ movesContains rd.moves i = true)
       ∨ (∀ pl, g.players[i]? = some pl → card ∉ pl.hand)) := by
  have inv := reachable_inv hre
  obtain ⟨k, hk, hd⟩ := inv.cr
  obtain ⟨pl, hpl⟩ : ∃ pl, g.players[i]? = some pl :=
    ⟨g.players[i], List.getElem?_eq_getElem hp⟩
  rcases hd with ⟨hnil, hk0⟩ | hlast
  · subst hk0
    have hcur : g.currentRoundVal = none := by
      unfold Game.currentRoundVal
      rw [hk, hnil]
      rfl
    have heval : g.play_card sh i card th mr = .error (.noActiveRound, g) := by
      simp [Game.play_card, hk, hnil]
    refine iff_of_true ⟨.noActiveRound, g, heval, rfl⟩ (Or.inl ?_)
    intro rd hrd
    rw [hcur] at hrd
    simp at hrd
  · have hklen : k < g.rounds.length := by omega
    obtain ⟨rd, hrd⟩ : ∃ rd, g.rounds[k]? = some rd :=
      ⟨g.rounds[k], List.getElem?_eq_getElem hklen⟩
    have hcur : g.currentRoundVal = some rd := by
      unfold Game.currentRoundVal
      rw [hk]
      exact hrd
    by_cases hj : i = rd.judge
    · subst hj
      have heval : g.play_card sh rd.judge card th mr
          = .error (.judgeCannotPlay pl.name, g) := by
        simp [Game.play_card, hk, hrd, hpl, Nat.not_le.mpr hklen]
      exact iff_of_true ⟨_, g, heval, rfl⟩ (Or.inr (Or.inl ⟨rd, hcur, rfl⟩))
    · by_cases hm : movesContains rd.moves i = true
      · have heval : g.play_card sh i card th mr
            = .error (.alreadyPlayed pl.name, g) := by
          simp [Game.play_card, hk, hrd, hpl, hj, hm, Nat.not_le.mpr hklen]
        exact iff_of_true ⟨_, g, heval, rfl⟩
          (Or.inr (Or.inr (Or.inl ⟨rd, hcur, hm⟩)))
      · have hmf : movesContains rd.moves i = false := by simpa using hm
        by_cases hcard : card ∈ pl.hand
        · have hcontains : pl.hand.contains card = true := by simpa using hcard
          refine iff_of_false ?_ ?_
          · rintro ⟨e, g1, heq, hinv⟩
            cases hdw : g.red_deck.drawWith sh with
            | none =>
              have heval : g.play_card sh i card th mr
                  = .error (.deckExhausted "red", g) := by
                simp [Game.play_card, hk, hrd, hpl, hj, hmf, hcontains, hdw,
                  Nat.not_le.mpr hklen, hcard]
              rw [heval] at heq
              simp at heq
              rw [← heq.1] at hinv
              simp [GameError.isInvalidMove] at hinv
            | some cd =>
              obtain ⟨nc, d1⟩ := cd
              rw [play_card_ok_eval hk hklen hrd hpl hj hmf hcontains hdw] at heq
              simp at heq
          · rintro (h1 | ⟨rd2, hrd2, hj2⟩ | ⟨rd2, hrd2, hm2⟩ | h4)
            · have hsome := h1 rd hcur
              have := inv.closedFull k rd hk hrd hsome i hp hj
              rw [this] at hmf
              simp at hmf
            · rw [hcur] at hrd2
              cases hrd2
              exact hj hj2
            · rw [hcur] at hrd2
              cases hrd2
              rw [hm2] at hmf
              simp at hmf
            · exact (h4 pl hpl) hcard
        · have hcf : pl.hand.contains card = false := by simpa using hcard
          have heval : g.play_card sh i card th mr
              = .error (.cardNotInHand card pl.name, g) := by
            simp [Game.play_card, hk, hrd, hpl, hj, hmf, hcf, Nat.not_le.mpr hklen,
              hcard]
          refine iff_of_true ⟨_, g, heval, rfl⟩
            (Or.inr (Or.inr (Or.inr (fun pl2 hpl2 => ?_))))
          rw [hpl] at hpl2
          cases hpl2
          exact hcard

/-- Witness for play_card_invalid_move_iff: before any round has been
started in the sample game, playing a card fails with an InvalidMove
error. -/
theorem play_card_invalid_move_witness :
    ∃ e g1, sampleG0.play_card id 0 "r4" "t" none = .error (e, g1)
      ∧ e.isInvalidMove = true :=
  (play_card_invalid_move_iff sampleG0_reachable id 0 "r4" "t" none
    (by decide)).mpr
    (Or.inl (fun rd hrd => by simp [Game.currentRoundVal, sampleG0] at hrd))

/-- Membership in the non-judge index list. -/
theorem mem_nonJudgeList (L J p : Nat) :
    p ∈ nonJudgeList L J ↔ (p < L ∧ p ≠ J) := by
  unfold nonJudgeList
  rw [List.mem_filter, List.mem_range]
  simp

/-- The two-sided inclusion check of judge_round holds exactly when the
move keys are, as a set, all player indices except the judge. -/
theorem check_true_iff (m : List (Nat × PlayerMove)) (L J : Nat) :
    ((movesKeys m).all (fun k => (nonJudgeList L J).contains k)
      && (nonJudgeList L J).all (fun k => (movesKeys m).contains k)) = true
    ↔ ∀ p, (movesContains m p = true ↔ (p < L ∧ p ≠ J)) := by
  rw [Bool.and_eq_true, List.all_eq_true, List.all_eq_true]
  constructor
  · rintro ⟨h1, h2⟩ p
    constructor
    · intro hc
      obtain ⟨kv, hkv, hfst⟩ := (movesContains_true_iff m p).mp hc
      have hmem : p ∈ movesKeys m := by
        unfold movesKeys
        exact List.mem_map.mpr ⟨kv, hkv, hfst⟩
      have hpn : p ∈ nonJudgeList L J := by simpa using h1 p hmem
      exact (mem_nonJudgeList L J p).mp hpn
    · intro hLJ
      have hpn : p ∈ nonJudgeList L J := (mem_nonJudgeList L J p).mpr hLJ
      have := h2 p hpn
      rw [keysContains_iff] at this
      exact (movesContains_true_iff m p).mpr this
  · intro h
    constructor
    · intro x hx
      unfold movesKeys at hx
      obtain ⟨kv, hkv, hfst⟩ := List.mem_map.mp hx
      have hc : movesContains m x = true :=
        (movesContains_true_iff m x).mpr ⟨kv, hkv, hfst⟩
      have hmem : x ∈ nonJudgeList L J := (mem_nonJudgeList L J x).mpr ((h x).mp hc)
      simpa using hmem
    · intro x hx
      have hx2 : x < L ∧ x ≠ J := (mem_nonJudgeList L J x).mp (by simpa using hx)
      have hc := (h x).mpr hx2
      rw [keysContains_iff]
      exact (movesContains_true_iff m x).mp hc

/-- C2: contract of judge_round on a state with an open current round:
(a) when the set of player indices with recorded moves differs from the
set of all players except the judge, it fails with the waiting-for
error naming exactly the still-missing players; (b) when the moves are
complete but the winning card matches no recorded move, it fails with
the card-not-played error; (c) when some recorded move has the winning
card, it succeeds, resolves the winner as the player of the
earliest-inserted matching move, attaches the decision (with that
winning_player) to the round, and appends the current round number to
exactly that player's won_rounds. -/
theorem judge_round_spec (g : Game) (cr : Nat) (rd : Round) (wc rs : String)
    (mr : Option ModelResponse)
    (hcr : g.current_round = some cr) (hrd : g.rounds[cr]? = some rd)
    (hopen : rd.decision = none) :
    ((¬ ∀ p, movesContains rd.moves p = true ↔
        (p < g.players.length ∧ p ≠ rd.judge)) →
      ∃ missing, g.judge_round wc rs mr = .error (.waitingFor missing, g) ∧
        (∀ name, name ∈ missing ↔ ∃ i, i < g.players.length ∧ i ≠ rd.judge ∧
          movesContains rd.moves i = false ∧ name = g.playerName i))
    ∧ ((∀ p, movesContains rd.moves p = true ↔
        (p < g.players.length ∧ p ≠ rd.judge)) →
      (∀ kv ∈ rd.moves, kv.2.played_card ≠ wc) →
      g.judge_round wc rs mr = .error (.cardNotPlayed wc, g))
    ∧ ((∀ p, movesContains rd.moves p = true ↔
        (p < g.players.length ∧ p ≠ rd.judge)) →
      (∃ kv ∈ rd.moves, kv.2.played_card = wc) →
      ∃ winner wmv p pre post,
        rd.moves = pre ++ (winner, wmv) :: post ∧ wmv.played_card = wc ∧
        (∀ kv ∈ pre, kv.2.played_card ≠ wc) ∧
        g.players[winner]? = some p ∧
        g.judge_round wc rs mr = .ok
          { g with
            rounds := g.rounds.set cr
              { rd with decision := some (mkJudgeDecision wc rs mr winner) }
            benchmark_stats := recordStats g.benchmark_stats mr
            players := g.players.set winner
              { p with won_rounds := p.won_rounds ++ [cr] } }) := by
  refine ⟨?_, ?_, ?_⟩
  · intro hne
    have hcheck : ((movesKeys rd.moves).all
        (fun k => (nonJudgeList g.players.length rd.judge).contains k)
      && (nonJudgeList g.players.length rd.judge).all
        (fun k => (movesKeys rd.moves).contains k)) = false := by
      rw [← Bool.not_eq_true, check_true_iff]
      exact hne
    refine ⟨((nonJudgeList g.players.length rd.judge).filter
        (fun i => !(movesContains rd.moves i))).map (fun i => g.playerName i),
      ?_, ?_⟩
    · simp only [Game.judge_round, hcr, hrd, hcheck]
      simp
    · intro name
      constructor
      · intro hname
        obtain ⟨i, hi, hn⟩ := List.mem_map.mp hname
        rw [List.mem_filter] at hi
        have h1 := (mem_nonJudgeList _ _ i).mp hi.1
        have h2 : movesContains rd.moves i = false := by simpa using hi.2
        exact ⟨i, h1.1, h1.2, h2, hn.symm⟩
      · rintro ⟨i, hiL, hiJ, hic, hn⟩
        refine List.mem_map.mpr ⟨i, ?_, hn.symm⟩
        rw [List.mem_filter]
        exact ⟨(mem_nonJudgeList _ _ i).mpr ⟨hiL, hiJ⟩, by simp [hic]⟩
  · intro hcomp hnone
    have hcheck := (check_true_iff rd.moves g.players.length rd.judge).mpr hcomp
    have hfind : rd.moves.find? (fun kv => kv.2.played_card == wc) = none := by
      rw [List.find?_eq_none]
      intro kv hkv
      simpa using hnone kv hkv
    simp only [Game.judge_round, hcr, hrd, hcheck, hfind]
    simp
  · intro hcomp hex
    have hcheck := (check_true_iff rd.moves g.players.length rd.judge).mpr hcomp
    have hsome : (rd.moves.find? (fun kv => kv.2.played_card == wc)).isSome := by
      rw [List.find?_isSome]
      obtain ⟨kv, hkv, hwc⟩ := hex
      exact ⟨kv, hkv, by simpa using hwc⟩
    obtain ⟨wkv, hfind⟩ := Option.isSome_iff_exists.mp hsome
    obtain ⟨winner, wmv⟩ := wkv
    obtain ⟨pre, post, hsplit, hfail⟩ := find?_eq_some_split _ _ _ hfind
    have hwmv : wmv.played_card = wc := by simpa using List.find?_some hfind
    have hwinner : movesContains rd.moves winner = true := by
      rw [movesContains_true_iff]
      exact ⟨(winner, wmv), by rw [hsplit]; simp, rfl⟩
    have hwL : winner < g.players.length := ((hcomp winner).mp hwinner).1
    obtain ⟨p, hp⟩ : ∃ p, g.players[winner]? = some p :=
      ⟨g.players[winner], List.getElem?_eq_getElem hwL⟩
    refine ⟨winner, wmv, p, pre, post, hsplit, hwmv, ?_, hp, ?_⟩
    · intro kv hkv
      have := hfail kv hkv
      simpa using this
    · simp only [Game.judge_round, hcr, hrd, hcheck, hfind, hp]
      simp

/-- Witness for judge_round_spec: judging the complete sample round with
a card nobody played fails with the card-not-played error. -/
theorem judge_round_spec_witness :
    sampleG2.judge_round "zzz" "r" none
      = .error (.cardNotPlayed "zzz", sampleG2) :=
  (judge_round_spec sampleG2 0
    { round_number := 0, green_card := "g2", judge := 0
      moves := [(1, { played_card := "r3", thinking := "think"
                      drawn_card := "r2"
                      log_path := .path ⟨"benchmark/logs/no_log.txt"⟩ })] }
    "zzz" "r" none rfl rfl rfl).2.1
    (by
      intro p
      rw [movesContains_true_iff]
      simp [sampleG2, sampleG1, sampleG0]
      omega)
    (by
      intro kv hkv
      simp at hkv
      rw [hkv]
      decide)

/-- The ASCII character of a decimal digit. -/
def digitChar (d : Nat) : Char := Char.ofNat (48 + d)

/-- The value of an ASCII decimal digit character. -/
def charVal (c : Char) : Nat := c.toNat - 48

/-- Decimal digit test. -/
def isDigitChar (c : Char) : Bool := decide (48 ≤ c.toNat ∧ c.toNat ≤ 57)

/-- Little-endian decimal digits of n, computed with enough fuel to be
structurally recursive (and hence kernel-reducible). -/
def natDigitsAux : Nat → Nat → List Char
  | 0, _ => []
  | fuel + 1, n => if n = 0 then [] else digitChar (n % 10) :: natDigitsAux fuel (n / 10)

/-- Model of the decimal rendering str(n) of a nonnegative Python int. -/
def natToString (n : Nat) : String :=
  if n = 0 then "0" else ((natDigitsAux n n).reverse).asString

/-- The fuelled digit list agrees with Mathlib's Nat.digits. -/
theorem natDigitsAux_eq_digits :
    ∀ (fuel n : Nat), n ≤ fuel → natDigitsAux fuel n = (Nat.digits 10 n).map digitChar := by
  intro fuel
  induction fuel with
  | zero =>
    intro n hn
    have : n = 0 := Nat.le_zero.mp hn
    subst this
    simp [natDigitsAux]
  | succ fuel ih =>
    intro n hn
    by_cases h0 : n = 0
    · subst h0
      simp [natDigitsAux]
    · have hdigits := Nat.digits_def' (b := 10) (by norm_num) (Nat.pos_of_ne_zero h0)
      rw [natDigitsAux, if_neg h0, hdigits]
      simp only [List.map_cons]
      congr 1
      exact ih (n / 10) (by
        have : n / 10 < n := Nat.div_lt_self (Nat.pos_of_ne_zero h0) (by norm_num)
        omega)

/-- Model of Python int(s) restricted to nonnegative decimal strings, as
used by pydantic to coerce JSON object keys back to ints. -/
def parseNatStr (s : String) : Option Nat :=
  if s.data ≠ [] ∧ s.data.all isDigitChar then
    some (Nat.ofDigits 10 ((s.data.map charVal).reverse))
  else none

theorem charVal_digitChar {d : Nat} (h : d < 10) : charVal (digitChar d) = d := by
  interval_cases d <;> decide

theorem isDigitChar_digitChar {d : Nat} (h : d < 10) :
    isDigitChar (digitChar d) = true := by
  interval_cases d <;> decide

/-- Decimal round trip: parsing the rendering of n gives back n. -/
theorem parseNatStr_natToString (n : Nat) : parseNatStr (natToString n) = some n := by
  by_cases h0 : n = 0
  · subst h0; decide
  · have hlt : ∀ d ∈ Nat.digits 10 n, d < 10 := fun d hd =>
      Nat.digits_lt_base (by norm_num) hd
    have hdata : (natToString n).data = ((Nat.digits 10 n).map digitChar).reverse := by
      rw [natToString, if_neg h0, natDigitsAux_eq_digits n n (Nat.le_refl n)]
      rfl
    have hne : (natToString n).data ≠ [] := by
      rw [hdata]
      simp
      exact Nat.digits_ne_nil_iff_ne_zero.mpr h0
    have hall : (natToString n).data.all isDigitChar = true := by
      rw [hdata, List.all_eq_true]
      intro c hc
      rw [List.mem_reverse, List.mem_map] at hc
      obtain ⟨d, hd, hcd⟩ := hc
      rw [← hcd]
      exact isDigitChar_digitChar (hlt d hd)
    rw [parseNatStr, if_pos ⟨hne, hall⟩, hdata]
    rw [List.map_reverse, List.reverse_reverse, List.map_map]
    have hmap : (Nat.digits 10 n).map (charVal ∘ digitChar) = Nat.digits 10 n := by
      have : (Nat.digits 10 n).map (charVal ∘ digitChar)
          = (Nat.digits 10 n).map id := by
        apply List.map_congr_left
        intro d hd
        exact charVal_digitChar (hlt d hd)
      rw [this, List.map_id]
    rw [hmap, Nat.ofDigits_digits]

/-- Model of str(k) for a Python int key. -/
def intKeyToString (i : Int) : String :=
  match i with
  | .ofNat m => natToString m
  | .negSucc m => "-" ++ natToString (m + 1)

/-- Model of int(s) for a decimal string with optional leading minus, as
pydantic applies to JSON object keys. -/
def parseIntKey (s : String) : Option Int :=
  if s.data.head? = some '-' then
    (parseNatStr ((s.data.drop 1).asString)).map (fun m => -(m : Int))
  else (parseNatStr s).map (fun m => (m : Int))

/-- Key round trip for the nonnegative keys produced by the dumps. -/
theorem parseIntKey_natKey (m : Nat) :
    parseIntKey (intKeyToString (Int.ofNat m)) = some (Int.ofNat m) := by
  have hne : (natToString m).data.head? ≠ some '-' := by
    by_cases h0 : m = 0
    · subst h0; decide
    · have hdata : (natToString m).data = ((Nat.digits 10 m).map digitChar).reverse := by
        rw [natToString, if_neg h0, natDigitsAux_eq_digits m m (Nat.le_refl m)]
        rfl
      intro hcon
      obtain ⟨c, hc, hcd⟩ : ∃ c, (natToString m).data.head? = some c ∧ c = '-' :=
        ⟨'-', hcon, rfl⟩
      have hmem : c ∈ (natToString m).data := List.mem_of_mem_head? hc
      rw [hdata, List.mem_reverse, List.mem_map] at hmem
      obtain ⟨d, hd, hdc⟩ := hmem
      have hlt : d < 10 := Nat.digits_lt_base (by norm_num) hd
      have := isDigitChar_digitChar hlt
      rw [hdc, hcd] at this
      simp [isDigitChar] at this
  rw [intKeyToString, parseIntKey, if_neg hne, parseNatStr_natToString]
  rfl

/-- model_dump of a Union[str, Path] field (python mode keeps both). -/
def dumpStrOrPath : StrOrPath → PyVal
  | .str s => .str s
  | .path p => .path p

/-- model_dump of an Optional[str] field. -/
def dumpOptStr : Option String → PyVal
  | none => .pynone
  | some s => .str s

/-- model_dump of an Optional[float] field. -/
def dumpOptFloat : Option Float → PyVal
  | none => .pynone
  | some f => .float f

/-- model_dump of a list of strings. -/
def dumpStrList : List String → PyListVal
  | [] => .nil
  | x :: rest => .cons (.str x) (dumpStrList rest)

/-- model_dump of a list of nonnegative ints. -/
def dumpNatList : List Nat → PyListVal
  | [] => .nil
  | k :: rest => .cons (.int (Int.ofNat k)) (dumpNatList rest)

/-- model_dump of a Deck. -/
def dumpDeck (d : Deck) : PyVal :=
  .dict (PyDictVal.ofList
    [(.s "draw_pile", .list (dumpStrList d.draw_pile)),
     (.s "discard_pile", .list (dumpStrList d.discard_pile))])

/-- model_dump of a PlayerMove. -/
def dumpMove (m : PlayerMove) : PyVal :=
  .dict (PyDictVal.ofList
    [(.s "played_card", .str m.played_card),
     (.s "thinking", .str m.thinking),
     (.s "drawn_card", .str m.drawn_card),
     (.s "log_path", dumpStrOrPath m.log_path),
     (.s "raw_response", dumpOptStr m.raw_response)])

/-- model_dump of a JudgeDecision. -/
def dumpDecision (d : JudgeDecision) : PyVal :=
  .dict (PyDictVal.ofList
    [(.s "winning_card", .str d.winning_card),
     (.s "winning_player", .int (Int.ofNat d.winning_player)),
     (.s "reasoning", .str d.reasoning),
     (.s "log_path", dumpStrOrPath d.log_path),
     (.s "raw_response", dumpOptStr d.raw_response)])

/-- model_dump of a moves dict (int player-index keys, python mode). -/
def dumpMoves : List (Nat × PlayerMove) → PyDictVal
  | [] => .nil
  | (k, m) :: rest => .cons (.i (Int.ofNat k)) (dumpMove m) (dumpMoves rest)

/-- model_dump of a Round. -/
def dumpRound (r : Round) : PyVal :=
  .dict (PyDictVal.ofList
    [(.s "round_number", .int (Int.ofNat r.round_number)),
     (.s "green_card", .str r.green_card),
     (.s "judge", .int (Int.ofNat r.judge)),
     (.s "moves", .dict (dumpMoves r.moves)),
     (.s "decision", match r.decision with
       | none => .pynone
       | some d => dumpDecision d)])

/-- model_dump of a list of rounds. -/
def dumpRounds : List Round → PyListVal
  | [] => .nil
  | r :: rest => .cons (dumpRound r) (dumpRounds rest)

/-- model_dump of a Player. -/
def dumpPlayer (p : Player) : PyVal :=
  .dict (PyDictVal.ofList
    [(.s "name", .str p.name),
     (.s "hand", .list (dumpStrList p.hand)),
     (.s "won_rounds", .list (dumpNatList p.won_rounds))])

/-- model_dump of the players dict: new_game keys the players with the
consecutive indices 0..n-1 in insertion order, so the dump enumerates
the player list from the given starting index. -/
def dumpPlayers (i : Nat) : List Player → PyDictVal
  | [] => .nil
  | p :: rest => .cons (.i (Int.ofNat i)) (dumpPlayer p) (dumpPlayers (i + 1) rest)

/-- model_dump of the per-model cost/call stats of one model. -/
def dumpModelStat : List (String × Float) → PyDictVal
  | [] => .nil
  | (k, f) :: rest => .cons (.s k) (.float f) (dumpModelStat rest)

/-- model_dump of the model_stats dict. -/
def dumpModelStats : List (String × List (String × Float)) → PyDictVal
  | [] => .nil
  | (k, m) :: rest => .cons (.s k) (.dict (dumpModelStat m)) (dumpModelStats rest)

/-- model_dump of the BenchmarkStats. -/
def dumpStats (s : BenchmarkStats) : PyVal :=
  .dict (PyDictVal.ofList
    [(.s "start_time", dumpOptFloat s.start_time),
     (.s "end_time", dumpOptFloat s.end_time),
     (.s "total_cost", .float s.total_cost),
     (.s "model_stats", .dict (dumpModelStats s.model_stats))])

/-- model_dump of the Optional[int] current_round field. -/
def dumpOptNat : Option Nat → PyVal
  | none => .pynone
  | some k => .int (Int.ofNat k)

/-- Model of Game.model_dump (python mode), in field declaration order,
as save_game produces it before json.dump. -/
def dumpGame (g : Game) : PyVal :=
  .dict (PyDictVal.ofList
    [(.s "version", .str g.version),
     (.s "players", .dict (dumpPlayers 0 g.players)),
     (.s "rounds", .list (dumpRounds g.rounds)),
     (.s "current_round", dumpOptNat g.current_round),
     (.s "total_rounds", .int g.total_rounds),
     (.s "red_deck", dumpDeck g.red_deck),
     (.s "green_deck", dumpDeck g.green_deck),
     (.s "benchmark_stats", dumpStats g.benchmark_stats)])

mutual
/-- Model of the JSON text layer of save_game / load_game: json.dump
writes the tree to text (serializing Path objects through the
path_serializer default as str(path) and stringifying int dict keys as
Python always does for JSON objects) and json.load reads the same text
back.  The composition is the identity on everything JSON can
represent, so it is modelled as one tree transformation. -/
def jsonRoundTrip : PyVal → PyVal
  | .pynone => .pynone
  | .str s => .str s
  | .int n => .int n
  | .float f => .float f
  | .bool b => .bool b
  | .path p => .str p.path
  | .list xs => .list (jsonRoundTripList xs)
  | .dict kvs => .dict (jsonRoundTripDict kvs)
def jsonRoundTripList : PyListVal → PyListVal
  | .nil => .nil
  | .cons x xs => .cons (jsonRoundTrip x) (jsonRoundTripList xs)
def jsonRoundTripDict : PyDictVal → PyDictVal
  | .nil => .nil
  | .cons k v kvs =>
    .cons (match k with
           | .s s => PyKey.s s
           | .i n => PyKey.s (intKeyToString n))
      (jsonRoundTrip v) (jsonRoundTripDict kvs)
end

/-- Replace the value stored under a string key, when the key is
present (Python: d[key] = f(d[key]) guarded by key in d). -/
def pyDictUpdate (kvs : PyDictVal) (key : String) (f : PyVal → PyVal) : PyDictVal :=
  match kvs with
  | .nil => .nil
  | .cons k v rest =>
    if k = PyKey.s key then .cons k (f v) rest
    else .cons k v (pyDictUpdate rest key f)

/-- Model of Path(x) as applied by load_game to a log_path value read
back from JSON (always a string there; any other value would make the
Path constructor raise and is left unchanged). -/
def pyToPath : PyVal → PyVal
  | .str s => .path ⟨s⟩
  | v => v

/-- The log_path fixup applied by load_game to one move dict. -/
def fixMove : PyVal → PyVal
  | .dict mkvs => .dict (pyDictUpdate mkvs "log_path" pyToPath)
  | v => v

/-- Apply the move fixup to every value of the moves dict (the
for move in round.get("moves", {}).values() loop). -/
def fixMoves : PyDictVal → PyDictVal
  | .nil => .nil
  | .cons k v rest => .cons k (fixMove v) (fixMoves rest)

/-- The fixups applied by load_game to one round dict: every move's
log_path, and the decision's log_path when the decision is a nonempty
dict (Python tests the decision for truthiness, so null is skipped). -/
def fixRound : PyVal → PyVal
  | .dict rkvs =>
    let rkvs := match pyDictGet rkvs "moves" with
      | some (.dict mkvs) => pyDictUpdate rkvs "moves" (fun _ => .dict (fixMoves mkvs))
      | _ => rkvs
    match pyDictGet rkvs "decision" with
    | some (.dict (.cons k v rest)) =>
      .dict (pyDictUpdate rkvs "decision"
        (fun _ => fixMove (.dict (.cons k v rest))))
    | _ => .dict rkvs
  | v => v

/-- Apply the round fixup to every element of the rounds list. -/
def fixRounds : PyListVal → PyListVal
  | .nil => .nil
  | .cons r rest => .cons (fixRound r) (fixRounds rest)

/-- Model of the fixup loop of load_game over the parsed JSON data:
convert every log_path string back into a Path before model_validate. -/
def fixupLoadGame : PyVal → PyVal
  | .dict kvs =>
    match pyDictGet kvs "rounds" with
    | some (.list rs) => .dict (pyDictUpdate kvs "rounds" (fun _ => .list (fixRounds rs)))
    | _ => .dict kvs
  | v => v

/-- pydantic validation of a str field. -/
def validateStr : PyVal → Option String
  | .str s => some s
  | _ => none

/-- pydantic validation of an int field (our dumps never exercise the
lax float-to-int coercion). -/
def validateInt : PyVal → Option Int
  | .int n => some n
  | _ => none

/-- Validation of an int field stored as a Nat in this embedding (player
indices and round numbers, always nonnegative in the game). -/
def validateNat : PyVal → Option Nat
  | .int n => if 0 ≤ n then some n.toNat else none
  | _ => none

/-- pydantic validation of a float field (lax mode coerces ints). -/
def validateFloat : PyVal → Option Float
  | .float f => some f
  | .int n => some (Float.ofInt n)
  | _ => none

/-- pydantic validation of an Optional[str] field. -/
def validateOptStr : PyVal → Option (Option String)
  | .pynone => some none
  | .str s => some (some s)
  | _ => none

/-- pydantic validation of an Optional[float] field. -/
def validateOptFloat : PyVal → Option (Option Float)
  | .pynone => some none
  | .float f => some (some f)
  | .int n => some (some (Float.ofInt n))
  | _ => none

/-- pydantic validation of a Union[str, Path] field: a str stays a str,
a Path instance stays a Path (smart union). -/
def validateStrOrPath : PyVal → Option StrOrPath
  | .str s => some (.str s)
  | .path p => some (.path p)
  | _ => none

/-- Validation of a list of strings. -/
def validateStrList : PyListVal → Option (List String)
  | .nil => some []
  | .cons (.str s) rest =>
    match validateStrList rest with
    | some l => some (s :: l)
    | none => none
  | .cons _ _ => none

/-- Validation of a list of nonnegative ints. -/
def validateNatList : PyListVal → Option (List Nat)
  | .nil => some []
  | .cons v rest =>
    match validateNat v, validateNatList rest with
    | some k, some l => some (k :: l)
    | _, _ => none

/-- Validation of a key of a dict keyed by int: after JSON the key is a
decimal string (python mode would still have the int). -/
def validateNatKey : PyKey → Option Nat
  | .s s =>
    match parseIntKey s with
    | some n => if 0 ≤ n then some n.toNat else none
    | none => none
  | .i n => if 0 ≤ n then some n.toNat else none

/-- Validation of a PlayerMove. -/
def validateMove : PyVal → Option PlayerMove
  | .dict kvs =>
    match pyDictGet kvs "played_card", pyDictGet kvs "thinking",
        pyDictGet kvs "drawn_card", pyDictGet kvs "log_path",
        pyDictGet kvs "raw_response" with
    | some pc, some th, some dc, some lp, some rr =>
      match validateStr pc, validateStr th, validateStr dc,
          validateStrOrPath lp, validateOptStr rr with
      | some pc, some th, some dc, some lp, some rr =>
        some { played_card := pc, thinking := th, drawn_card := dc
               log_path := lp, raw_response := rr }
      | _, _, _, _, _ => none
    | _, _, _, _, _ => none
  | _ => none

/-- Validation of the moves dict. -/
def validateMoves : PyDictVal → Option (List (Nat × PlayerMove))
  | .nil => some []
  | .cons k v rest =>
    match validateNatKey k, validateMove v, validateMoves rest with
    | some i, some m, some l => some ((i, m) :: l)
    | _, _, _ => none

/-- Validation of a JudgeDecision. -/
def validateDecision : PyVal → Option JudgeDecision
  | .dict kvs =>
    match pyDictGet kvs "winning_card", pyDictGet kvs "winning_player",
        pyDictGet kvs "reasoning", pyDictGet kvs "log_path",
        pyDictGet kvs "raw_response" with
    | some wc, some wp, some rs, some lp, some rr =>
      match validateStr wc, validateNat wp, validateStr rs,
          validateStrOrPath lp, validateOptStr rr with
      | some wc, some wp, some rs, some lp, some rr =>
        some { winning_card := wc, winning_player := wp, reasoning := rs
               log_path := lp, raw_response := rr }
      | _, _, _, _, _ => none
    | _, _, _, _, _ => none
  | _ => none

/-- Validation of an Optional[JudgeDecision] field. -/
def validateOptDecision : PyVal → Option (Option JudgeDecision)
  | .pynone => some none
  | v =>
    match validateDecision v with
    | some d => some (some d)
    | none => none

/-- Validation of a Round. -/
def validateRound : PyVal → Option Round
  | .dict kvs =>
    match pyDictGet kvs "round_number", pyDictGet kvs "green_card",
        pyDictGet kvs "judge", pyDictGet kvs "moves",
        pyDictGet kvs "decision" with
    | some rn, some gc, some j, some (.dict mkvs), some dec =>
      match validateNat rn, validateStr gc, validateNat j,
          validateMoves mkvs, validateOptDecision dec with
      | some rn, some gc, some j, some mv, some dec =>
        some { round_number := rn, green_card := gc, judge := j
               moves := mv, decision := dec }
      | _, _, _, _, _ => none
    | _, _, _, _, _ => none
  | _ => none

/-- Validation of the rounds list. -/
def validateRounds : PyListVal → Option (List Round)
  | .nil => some []
  | .cons r rest =>
    match validateRound r, validateRounds rest with
    | some rd, some l => some (rd :: l)
    | _, _ => none

/-- Validation of a Player. -/
def validatePlayer : PyVal → Option Player
  | .dict kvs =>
    match pyDictGet kvs "name", pyDictGet kvs "hand",
        pyDictGet kvs "won_rounds" with
    | some nm, some (.list hd), some (.list wr) =>
      match validateStr nm, validateStrList hd, validateNatList wr with
      | some nm, some hd, some wr =>
        some { name := nm, hand := hd, won_rounds := wr }
      | _, _, _ => none
    | _, _, _ => none
  | _ => none

/-- Validation of the players dict into the positional player list of
this embedding: the keys must be the consecutive indices i, i+1, ... in
insertion order, as new_game always produces and every dump of a
reachable game therefore contains. -/
def validatePlayers (i : Nat) : PyDictVal → Option (List Player)
  | .nil => some []
  | .cons k v rest =>
    match validateNatKey k with
    | some j =>
      if j = i then
        match validatePlayer v, validatePlayers (i + 1) rest with
        | some p, some l => some (p :: l)
        | _, _ => none
      else none
    | none => none

/-- Validation of the per-model cost/call stats of one model. -/
def validateModelStat : PyDictVal → Option (List (String × Float))
  | .nil => some []
  | .cons (.s k) v rest =>
    match validateFloat v, validateModelStat rest with
    | some f, some l => some ((k, f) :: l)
    | _, _ => none
  | .cons (.i _) _ _ => none

/-- Validation of the model_stats dict. -/
def validateModelStats : PyDictVal → Option (List (String × List (String × Float)))
  | .nil => some []
  | .cons (.s k) (.dict m) rest =>
    match validateModelStat m, validateModelStats rest with
    | some ms, some l => some ((k, ms) :: l)
    | _, _ => none
  | .cons _ _ _ => none

/-- Validation of the BenchmarkStats. -/
def validateStats : PyVal → Option BenchmarkStats
  | .dict kvs =>
    match pyDictGet kvs "start_time", pyDictGet kvs "end_time",
        pyDictGet kvs "total_cost", pyDictGet kvs "model_stats" with
    | some st, some et, some tc, some (.dict ms) =>
      match validateOptFloat st, validateOptFloat et, validateFloat tc,
          validateModelStats ms with
      | some st, some et, some tc, some ms =>
        some { start_time := st, end_time := et, total_cost := tc
               model_stats := ms }
      | _, _, _, _ => none
    | _, _, _, _ => none
  | _ => none

/-- Validation of the Optional[int] current_round field. -/
def validateOptNat : PyVal → Option (Option Nat)
  | .pynone => some none
  | .int n => if 0 ≤ n then some (some n.toNat) else none
  | _ => none

/-- Validation of a Deck. -/
def validateDeck : PyVal → Option Deck
  | .dict kvs =>
    match pyDictGet kvs "draw_pile", pyDictGet kvs "discard_pile" with
    | some (.list dp), some (.list di) =>
      match validateStrList dp, validateStrList di with
      | some dp, some di => some { draw_pile := dp, discard_pile := di }
      | _, _ => none
    | _, _ => none
  | _ => none

/-- Model of Game.model_validate as load_game applies it to the fixed-up
JSON data. -/
def validateGame : PyVal → Option Game
  | .dict kvs =>
    match pyDictGet kvs "version", pyDictGet kvs "players",
        pyDictGet kvs "rounds", pyDictGet kvs "current_round",
        pyDictGet kvs "total_rounds", pyDictGet kvs "red_deck",
        pyDictGet kvs "green_deck", pyDictGet kvs "benchmark_stats" with
    | some ver, some (.dict ps), some (.list rs), some crv, some tr,
        some rdv, some gdv, some bsv =>
      match validateStr ver, validatePlayers 0 ps, validateRounds rs,
          validateOptNat crv, validateInt tr, validateDeck rdv,
          validateDeck gdv, validateStats bsv with
      | some ver, some ps, some rs, some cr, some tr, some rd, some gd,
          some bs =>
        some { version := ver, players := ps, rounds := rs
               current_round := cr, total_rounds := tr
               red_deck := rd, green_deck := gd, benchmark_stats := bs }
      | _, _, _, _, _, _, _, _ => none
    | _, _, _, _, _, _, _, _ => none
  | _ => none

/-- Model of load_game applied to the file written by save_game: the
dumped tree goes through the JSON text layer, the log_path fixup, and
model_validate. -/
def saveLoadGame (g : Game) : Option Game :=
  validateGame (fixupLoadGame (jsonRoundTrip (dumpGame g)))

theorem rt_strList (l : List String) :
    validateStrList (jsonRoundTripList (dumpStrList l)) = some l := by
  induction l with
  | nil => rfl
  | cons x rest ih =>
    simp only [dumpStrList, jsonRoundTripList, jsonRoundTrip, validateStrList, ih]

theorem rt_natList (l : List Nat) :
    validateNatList (jsonRoundTripList (dumpNatList l)) = some l := by
  induction l with
  | nil => rfl
  | cons k rest ih =>
    simp only [dumpNatList, jsonRoundTripList, jsonRoundTrip, validateNatList,
      validateNat, ih]
    simp

theorem rt_deck (d : Deck) :
    validateDeck (jsonRoundTrip (dumpDeck d)) = some d := by
  obtain ⟨dp, di⟩ := d
  simp only [dumpDeck, PyDictVal.ofList, jsonRoundTrip, jsonRoundTripDict,
    validateDeck, pyDictGet]
  simp [rt_strList]

theorem rt_move (m : PlayerMove) (wf : ∃ q, m.log_path = StrOrPath.path q) :
    validateMove (fixMove (jsonRoundTrip (dumpMove m))) = some m := by
  obtain ⟨pc, th, dc, lp, rr⟩ := m
  obtain ⟨q, hq⟩ := wf
  simp only at hq
  subst hq
  cases rr <;> rfl

theorem rt_decision (d : JudgeDecision)
    (wf : ∃ q, d.log_path = StrOrPath.path q) :
    validateDecision (fixMove (jsonRoundTrip (dumpDecision d))) = some d := by
  obtain ⟨wc, wp, rs, lp, rr⟩ := d
  obtain ⟨q, hq⟩ := wf
  simp only at hq
  subst hq
  cases rr <;>
    simp [dumpDecision, PyDictVal.ofList, jsonRoundTrip, jsonRoundTripDict,
      dumpStrOrPath, dumpOptStr, fixMove, pyDictUpdate, pyToPath, validateDecision,
      pyDictGet, validateStr, validateNat, validateStrOrPath, validateOptStr,
      parseIntKey_natKey]

theorem rt_moves (l : List (Nat × PlayerMove))
    (wf : ∀ kv ∈ l, ∃ q, kv.2.log_path = StrOrPath.path q) :
    validateMoves (fixMoves (jsonRoundTripDict (dumpMoves l))) = some l := by
  induction l with
  | nil => rfl
  | cons kv rest ih =>
    obtain ⟨k, m⟩ := kv
    have hm := rt_move m (wf (k, m) (List.mem_cons_self _ _))
    have hrest := ih (fun kv hkv => wf kv (List.mem_cons_of_mem _ hkv))
    simp only [dumpMoves, jsonRoundTripDict, fixMoves, validateMoves, hm, hrest,
      validateNatKey, parseIntKey_natKey]
    simp

/-- The decision entry of a round dict after dump, JSON and fixup. -/
def fixedOptDecision : Option JudgeDecision → PyVal
  | none => .pynone
  | some d => fixMove (jsonRoundTrip (dumpDecision d))

theorem fixRound_dump (rn : Nat) (gc : String) (j : Nat)
    (mv : List (Nat × PlayerMove)) (dec : Option JudgeDecision) :
    fixRound (jsonRoundTrip (dumpRound
        { round_number := rn, green_card := gc, judge := j
          moves := mv, decision := dec }))
      = .dict (.cons (.s "round_number") (.int (Int.ofNat rn))
          (.cons (.s "green_card") (.str gc)
            (.cons (.s "judge") (.int (Int.ofNat j))
              (.cons (.s "moves")
                (.dict (fixMoves (jsonRoundTripDict (dumpMoves mv))))
                (.cons (.s "decision") (fixedOptDecision dec) .nil))))) := by
  cases dec <;> rfl

theorem rt_optDecision (dec : Option JudgeDecision)
    (wfd : ∀ d, dec = some d → ∃ q, d.log_path = StrOrPath.path q) :
    validateOptDecision (fixedOptDecision dec) = some dec := by
  cases dec with
  | none => rfl
  | some d =>
    obtain ⟨wc, wp, rs, lp, rr⟩ := d
    obtain ⟨q, hq⟩ := wfd _ rfl
    simp only at hq
    subst hq
    cases rr <;> rfl

theorem rt_round (rd : Round)
    (wfm : ∀ kv ∈ rd.moves, ∃ q, kv.2.log_path = StrOrPath.path q)
    (wfd : ∀ d, rd.decision = some d → ∃ q, d.log_path = StrOrPath.path q) :
    validateRound (fixRound (jsonRoundTrip (dumpRound rd))) = some rd := by
  obtain ⟨rn, gc, j, mv, dec⟩ := rd
  simp only at wfm wfd
  rw [fixRound_dump]
  simp [validateRound, pyDictGet, validateNat, validateStr,
    rt_moves mv wfm, rt_optDecision dec wfd]

theorem rt_rounds (l : List Round)
    (wf : ∀ rd ∈ l,
      (∀ kv ∈ rd.moves, ∃ q, kv.2.log_path = StrOrPath.path q) ∧
      (∀ d, rd.decision = some d → ∃ q, d.log_path = StrOrPath.path q)) :
    validateRounds (fixRounds (jsonRoundTripList (dumpRounds l))) = some l := by
  induction l with
  | nil => rfl
  | cons rd rest ih =>
    have hrd := rt_round rd (wf rd (List.mem_cons_self _ _)).1
      (wf rd (List.mem_cons_self _ _)).2
    have hrest := ih (fun rd2 h2 => wf rd2 (List.mem_cons_of_mem _ h2))
    simp only [dumpRounds, jsonRoundTripList, fixRounds, validateRounds, hrd, hrest]

theorem rt_player (p : Player) :
    validatePlayer (jsonRoundTrip (dumpPlayer p)) = some p := by
  obtain ⟨nm, hd, wr⟩ := p
  simp [dumpPlayer, PyDictVal.ofList, jsonRoundTrip, jsonRoundTripDict,
    validatePlayer, pyDictGet, validateStr, rt_strList, rt_natList]

theorem rt_players (ps : List Player) :
    ∀ i, validatePlayers i (jsonRoundTripDict (dumpPlayers i ps)) = some ps := by
  induction ps with
  | nil => intro i; rfl
  | cons p rest ih =>
    intro i
    simp only [dumpPlayers, jsonRoundTripDict, validatePlayers, validateNatKey,
      parseIntKey_natKey, rt_player p, ih (i + 1)]
    simp

theorem rt_modelStat (l : List (String × Float)) :
    validateModelStat (jsonRoundTripDict (dumpModelStat l)) = some l := by
  induction l with
  | nil => rfl
  | cons kv rest ih =>
    obtain ⟨k, f⟩ := kv
    simp only [dumpModelStat, jsonRoundTripDict, jsonRoundTrip,
      validateModelStat, validateFloat, ih]

theorem rt_modelStats (l : List (String × List (String × Float))) :
    validateModelStats (jsonRoundTripDict (dumpModelStats l)) = some l := by
  induction l with
  | nil => rfl
  | cons kv rest ih =>
    obtain ⟨k, m⟩ := kv
    simp only [dumpModelStats, jsonRoundTripDict, jsonRoundTrip,
      validateModelStats, rt_modelStat m, ih]

theorem rt_stats (s : BenchmarkStats) :
    validateStats (jsonRoundTrip (dumpStats s)) = some s := by
  obtain ⟨st, et, tc, ms⟩ := s
  cases st <;> cases et <;>
    simp [dumpStats, PyDictVal.ofList, dumpOptFloat, jsonRoundTrip,
      jsonRoundTripDict, validateStats, pyDictGet, validateOptFloat,
      validateFloat, rt_modelStats]

theorem rt_optNat (cr : Option Nat) :
    validateOptNat (jsonRoundTrip (dumpOptNat cr)) = some cr := by
  cases cr <;> simp [dumpOptNat, jsonRoundTrip, validateOptNat]

theorem fixup_dump (ver : String) (ps : List Player) (rs : List Round)
    (cr : Option Nat) (tr : Int) (rdk gdk : Deck) (bs : BenchmarkStats) :
    fixupLoadGame (jsonRoundTrip (dumpGame
        { version := ver, players := ps, rounds := rs, current_round := cr
          total_rounds := tr, red_deck := rdk, green_deck := gdk
          benchmark_stats := bs }))
      = .dict (.cons (.s "version") (.str ver)
          (.cons (.s "players") (.dict (jsonRoundTripDict (dumpPlayers 0 ps)))
            (.cons (.s "rounds")
              (.list (fixRounds (jsonRoundTripList (dumpRounds rs))))
              (.cons (.s "current_round") (jsonRoundTrip (dumpOptNat cr))
                (.cons (.s "total_rounds") (.int tr)
                  (.cons (.s "red_deck") (jsonRoundTrip (dumpDeck rdk))
                    (.cons (.s "green_deck") (jsonRoundTrip (dumpDeck gdk))
                      (.cons (.s "benchmark_stats")
                        (jsonRoundTrip (dumpStats bs)) .nil)))))))) := rfl

/-- The serialization round trip: loading what save_game wrote restores
the game field for field, provided every recorded log path is a Path
value (as in every reachable state). -/
theorem saveLoadGame_eq (g : Game)
    (wf : ∀ rd ∈ g.rounds,
      (∀ kv ∈ rd.moves, ∃ q, kv.2.log_path = StrOrPath.path q) ∧
      (∀ d, rd.decision = some d → ∃ q, d.log_path = StrOrPath.path q)) :
    saveLoadGame g = some g := by
  obtain ⟨ver, ps, rs, cr, tr, rdk, gdk, bs⟩ := g
  simp only at wf
  unfold saveLoadGame
  rw [fixup_dump]
  simp [validateGame, pyDictGet, validateStr, rt_players ps 0, rt_rounds rs wf,
    rt_optNat, validateInt, rt_deck, rt_stats]

/-- C4: serialization round trip: for every reachable game state,
loading the snapshot written by save_game (model_dump, the JSON text
layer with the Path default serializer and int-key stringification, the
load_game log_path fixup, and model_validate) yields the game again,
field for field — both decks' pile contents and order, every player's
hand and won_rounds, and every round's moves in insertion order with
all move fields and the decision. -/
theorem serialization_round_trip {n : Nat} {g : Game} (hre : Reachable n g) :
    saveLoadGame g = some g := by
  apply saveLoadGame_eq
  intro rd hrd
  exact (reachable_inv hre).pathsOk rd hrd

/-- Witness for serialization_round_trip on the concrete sample game
with a full closed round. -/
theorem serialization_round_trip_witness :
    saveLoadGame sampleG3 = some sampleG3 :=
  serialization_round_trip sampleG3_reachable
